import Mathlib

/-!
Verification development for the `streamany` RTMP ingress engine
(`src/core/amf.ts`, `src/core/chunk.ts`, `src/core/rtmp.ts`,
`src/core/messages.ts`).

The TypeScript sources are shallowly embedded:
* byte buffers (`Uint8Array`) are `List Nat` whose entries are byte values;
* JavaScript 32-bit bitwise arithmetic (`<<`, `|`, signed results) is made
  explicit (`toInt32`, `jsByteOf`);
* `async` socket reads become explicit consumption of a byte-list stream
  (`jsRead`), where a read of `n` bytes returns at most `n` bytes and
  returns `none` exactly when the peer has closed the stream (`conn.read`
  returning `null`);
* loops whose termination JavaScript does not guarantee are written with an
  explicit fuel parameter; exhausting every fuel models divergence;
* JavaScript exceptions (`assertEquals` failures, `throw`, `RangeError`
  from `DataView`) are modelled with `Option`/`Except` error results.
-/

namespace Streamany

/-- A byte buffer (`Uint8Array`): a list of byte values. -/
abbrev Bytes := List Nat

/-- JavaScript `ToInt32`: wrap to 32 bits and reinterpret as signed. -/
def toInt32 (n : Nat) : Int :=
  if n % 2 ^ 32 < 2 ^ 31 then ((n % 2 ^ 32 : Nat) : Int)
  else ((n % 2 ^ 32 : Nat) : Int) - 2 ^ 32

/-- JavaScript `(x >> (8*k)) & 0xFF` for a nonnegative integral number `x`:
byte `k` (little-endian numbering) of `x mod 2^32`.  For `x < 2^31` the JS
signed shift agrees with this plain `Nat` computation, and for larger `x`
the leading `ToInt32` wrap makes the two agree as well because the masked
byte only depends on `x mod 2^32`. -/
def jsByteOf (x : Nat) (k : Nat) : Nat :=
  x % 2 ^ 32 / 2 ^ (8 * k) % 256

/-- Big-endian 2-byte encoding `[(x >> 8) & 0xFF, x & 0xFF]`. -/
def u16be (x : Nat) : Bytes := [jsByteOf x 1, jsByteOf x 0]

/-- Big-endian 4-byte encoding `[(x >> 24) & 0xFF, ..., x & 0xFF]`. -/
def u32be (x : Nat) : Bytes := [jsByteOf x 3, jsByteOf x 2, jsByteOf x 1, jsByteOf x 0]

/-- JavaScript `(b0 << 8) | b1` on byte values. -/
def be2 (b0 b1 : Nat) : Nat := b0 * 256 + b1

/-- JavaScript `(b0 << 16) | (b1 << 8) | b2` on byte values (for bytes
`< 256` the signed 32-bit `|` yields exactly this nonnegative number). -/
def be3 (b0 b1 b2 : Nat) : Nat := b0 * 2 ^ 16 + b1 * 2 ^ 8 + b2

/-- JavaScript `(b0 << 24) | (b1 << 16) | (b2 << 8) | b3`: a *signed*
32-bit result (the top bit of `b0` makes it negative). -/
def be4signed (b0 b1 b2 b3 : Nat) : Int :=
  toInt32 (b0 * 2 ^ 24 + b1 * 2 ^ 16 + b2 * 2 ^ 8 + b3)

/-- Clamp a JavaScript relative index for `TypedArray.prototype.slice`:
negative indices count from the end, positive ones are capped at `len`. -/
def jsIdx (len : Nat) (i : Int) : Nat :=
  if i < 0 then ((len : Int) + i).toNat else min i.toNat len

/-- JavaScript `buffer.slice(s, e)` with full relative-index semantics. -/
def jsSlice (b : Bytes) (s e : Int) : Bytes :=
  (b.take (jsIdx b.length e)).drop (jsIdx b.length s)

/-- `buffer[i]` as JavaScript sees it: `none` models `undefined`
(out-of-bounds or negative index). -/
def jsByteOpt (b : Bytes) (i : Int) : Option Nat :=
  if 0 ≤ i then b[i.toNat]? else none

/-- `buffer[i]` used in arithmetic position: `undefined` coerces to `NaN`
and `ToInt32(NaN) = 0`, so out-of-bounds reads act as `0` there. -/
def jsByteNum (b : Bytes) (i : Int) : Nat := (jsByteOpt b i).getD 0

/-- ASCII string literal as UTF-8 bytes (all string literals in the
sources are ASCII). -/
def ascii (s : String) : Bytes := s.toList.map Char.toNat

/-! ## AMF0 value model (`src/core/amf.ts`)

The TypeScript value domain is
`number | boolean | string | {…} | null | undefined | AMF0Value[] | Date`.
A JavaScript `number` is an IEEE-754 binary64 and both the encoder
(`DataView.setFloat64(…, false)`) and the decoder
(`DataView.getFloat64(0, false)`) move exactly its 64-bit pattern
big-endian, so a number is represented here by that 8-byte big-endian bit
pattern; likewise the millisecond timestamp of a `Date`.  A string is
represented by its UTF-8 bytes (`TextEncoder`/`TextDecoder` are mutually
inverse on well-formed strings).  An object is its ordered property list. -/

inductive AMF0Value where
  | num (bits : Bytes)
  | bool (b : Bool)
  | str (s : Bytes)
  | obj (props : List (Bytes × AMF0Value))
  | nullV
  | undef
  | arr (elems : List AMF0Value)
  | date (bits : Bytes)

/-- JavaScript truthiness of an AMF0 value.  A number is falsy iff it is
`±0` or `NaN`, which on the 8-byte big-endian pattern means: all bits
except possibly the sign are zero, or the exponent is all-ones with a
nonzero mantissa. -/
def jsTruthy : AMF0Value → Bool
  | .num bits =>
      let isZero := bits = [0, 0, 0, 0, 0, 0, 0, 0] ∨ bits = [128, 0, 0, 0, 0, 0, 0, 0]
      let expAllOnes := bits.headD 0 % 128 = 127 ∧ (bits.drop 1).headD 0 / 16 = 15
      let mantissaZero :=
        (bits.drop 1).headD 0 % 16 = 0 ∧ bits.drop 2 = [0, 0, 0, 0, 0, 0]
      ¬(isZero ∨ (expAllOnes ∧ ¬mantissaZero))
  | .bool b => b
  | .str s => s ≠ []
  | .obj _ => true
  | .nullV => false
  | .undef => false
  | .arr _ => true
  | .date _ => true

/-- JavaScript `x || null` as used for `commandObject || null`. -/
def jsOrNull (v : AMF0Value) : AMF0Value := if jsTruthy v then v else .nullV

/-- IEEE-754 binary64 big-endian bit patterns of the small constants the
engine embeds in command replies. -/
def f64_0 : Bytes := [0, 0, 0, 0, 0, 0, 0, 0]

/-- Bit pattern of the number `1`. -/
def f64_1 : Bytes := [0x3F, 0xF0, 0, 0, 0, 0, 0, 0]

/-- Bit pattern of the number `31`. -/
def f64_31 : Bytes := [0x40, 0x3F, 0, 0, 0, 0, 0, 0]

/-! ### Encoder (`encodeAMF0Value`, `encodeAMF0Command`) -/

mutual

/-- `encodeAMF0Value` from `src/core/amf.ts`: type-directed encoder.
Strings of at most 65535 bytes use marker 0x02 (String) and longer ones
marker 0x0C (Long String); arrays use 0x0A (Strict Array); objects use
0x03 terminated by the empty key plus 0x09. -/
def encodeAMF0Value : AMF0Value → Bytes
  | .num bits => 0x00 :: bits
  | .bool b => [0x01, if b then 1 else 0]
  | .str s =>
      if s.length ≤ 65535 then 0x02 :: (u16be s.length ++ s)
      else 0x0C :: (u32be s.length ++ s)
  | .obj props => 0x03 :: (encodeProps props ++ [0, 0, 0x09])
  | .nullV => [0x05]
  | .undef => [0x06]
  | .arr elems => 0x0A :: (u32be elems.length ++ encodeElems elems)
  | .date bits => 0x0B :: (bits ++ [0, 0])

/-- Property list of an object: `u16` key length, key bytes, value. -/
def encodeProps : List (Bytes × AMF0Value) → Bytes
  | [] => []
  | (k, v) :: rest => (u16be k.length ++ k ++ encodeAMF0Value v) ++ encodeProps rest

/-- Concatenated encodings of strict-array elements. -/
def encodeElems : List AMF0Value → Bytes
  | [] => []
  | v :: rest => encodeAMF0Value v ++ encodeElems rest

end

/-! ### Decoder (`parseAMF0Value`, `parseAMF0Command`)

The decoder is a straight transcription of `parseAMF0Value`.  Positions are
JavaScript numbers and can go negative through the signed 32-bit length
reads, so they are modelled as `Int`.  The `while (true)` property loop of
the Object and ECMA-Array cases does not terminate on some inputs (an
out-of-bounds read yields `undefined`, which never matches the
`OBJECT_END` test), so all parsing functions burn explicit fuel; a result
of `none` for every fuel models divergence.  The only JavaScript exception
the decoder can raise is the `RangeError` thrown by the `DataView`
constructor when fewer than 8 bytes remain for a Number or Date. -/

inductive JsErr where
  | rangeError
  | typeError
deriving DecidableEq, Repr

/-- JavaScript `obj[key] = value` on the ordered-property view of an
object: update the existing property in place, else append. -/
def jsInsert (props : List (Bytes × AMF0Value)) (k : Bytes) (v : AMF0Value) :
    List (Bytes × AMF0Value) :=
  if props.any (fun p => p.1 = k) then
    props.map (fun p => if p.1 = k then (k, v) else p)
  else props ++ [(k, v)]

mutual

/-- `parseAMF0Value(buffer, position)`: returns the parsed value and the
new position.  `none` = fuel exhausted (divergence), `some (.error e)` = a
JavaScript exception, `some (.ok (v, p))` = normal return. -/
def parseAMF0Value (fuel : Nat) (buffer : Bytes) (position : Int) :
    Option (Except JsErr (AMF0Value × Int)) :=
  match fuel with
  | 0 => none
  | fuel + 1 =>
    let t := jsByteOpt buffer position
    if t = some 0x00 then
        -- NUMBER: new DataView(..., position+1, 8) then getFloat64 big-endian
        if position + 1 + 8 ≤ (buffer.length : Int) ∧ 0 ≤ position + 1 then
          some (.ok (.num (jsSlice buffer (position + 1) (position + 1 + 8)),
                     position + 1 + 8))
        else some (.error .rangeError)
    else if t = some 0x01 then
        -- BOOLEAN: buffer[position+1] !== 0 (undefined !== 0 is true)
        some (.ok (.bool (jsByteOpt buffer (position + 1) ≠ some 0), position + 2))
    else if t = some 0x02 then
        -- STRING: `stringLength` is the u16 at position+1..2, then the data
        some (.ok (.str (jsSlice buffer (position + 3)
                    (position + 3 + be2 (jsByteNum buffer (position + 1))
                      (jsByteNum buffer (position + 2)))),
                   position + 3 + be2 (jsByteNum buffer (position + 1))
                     (jsByteNum buffer (position + 2))))
    else if t = some 0x03 then
        -- OBJECT
        parseProps fuel buffer (position + 1) []
    else if t = some 0x05 then some (.ok (.nullV, position + 1))
    else if t = some 0x06 then some (.ok (.undef, position + 1))
    else if t = some 0x08 then
        -- ECMA_ARRAY: skip the u32 count, then as OBJECT
        parseProps fuel buffer (position + 1 + 4) []
    else if t = some 0x0A then
        -- STRICT_ARRAY: `arrayLength` is the signed u32 count; `i < arrayLength`
        -- runs `arrayLength.toNat` iterations
        parseElems fuel buffer (position + 5)
          (be4signed (jsByteNum buffer (position + 1)) (jsByteNum buffer (position + 2))
            (jsByteNum buffer (position + 3)) (jsByteNum buffer (position + 4))).toNat []
    else if t = some 0x0B then
        -- DATE: float64 timestamp then ignored 2-byte timezone
        if position + 1 + 8 ≤ (buffer.length : Int) ∧ 0 ≤ position + 1 then
          some (.ok (.date (jsSlice buffer (position + 1) (position + 1 + 8)),
                     position + 1 + 8 + 2))
        else some (.error .rangeError)
    else if t = some 0x0C then
        -- LONG_STRING: `stringLength` is the *signed* u32 at position+1..4
        some (.ok (.str (jsSlice buffer (position + 5)
                    (position + 5 + be4signed (jsByteNum buffer (position + 1))
                      (jsByteNum buffer (position + 2)) (jsByteNum buffer (position + 3))
                      (jsByteNum buffer (position + 4)))),
                   position + 5 + be4signed (jsByteNum buffer (position + 1))
                     (jsByteNum buffer (position + 2)) (jsByteNum buffer (position + 3))
                     (jsByteNum buffer (position + 4))))
    else
        -- unsupported/unknown marker (also undefined): warn, return null
        some (.ok (.nullV, position + 1))

/-- The `while (true)` property loop shared by the Object and ECMA-Array
cases: u16 key length, key bytes, value, until the empty key followed by
the `OBJECT_END` byte 0x09. -/
def parseProps (fuel : Nat) (buffer : Bytes) (position : Int)
    (obj : List (Bytes × AMF0Value)) :
    Option (Except JsErr (AMF0Value × Int)) :=
  match fuel with
  | 0 => none
  | fuel + 1 =>
    -- `propertyNameLength` is the u16 at position..position+1
    if be2 (jsByteNum buffer position) (jsByteNum buffer (position + 1)) = 0 ∧
        jsByteOpt buffer (position + 2) = some 0x09 then
      some (.ok (.obj obj, position + 2 + 1))
    else
      match parseAMF0Value fuel buffer
        (position + 2 + be2 (jsByteNum buffer position) (jsByteNum buffer (position + 1))) with
      | none => none
      | some (.error e) => some (.error e)
      | some (.ok (v, newPosition)) =>
          parseProps fuel buffer newPosition
            (jsInsert obj
              (jsSlice buffer (position + 2)
                (position + 2 + be2 (jsByteNum buffer position)
                  (jsByteNum buffer (position + 1))))
              v)

/-- The element loop of the Strict-Array case (`for (i = 0; i < n; i++)`). -/
def parseElems (fuel : Nat) (buffer : Bytes) (position : Int) (remaining : Nat)
    (acc : List AMF0Value) : Option (Except JsErr (AMF0Value × Int)) :=
  match fuel with
  | 0 => none
  | fuel + 1 =>
    match remaining with
    | 0 => some (.ok (.arr acc.reverse, position))
    | remaining + 1 =>
        match parseAMF0Value fuel buffer position with
        | none => none
        | some (.error e) => some (.error e)
        | some (.ok (v, newPosition)) =>
            parseElems fuel buffer newPosition remaining (v :: acc)

end

/-- Result record of `parseAMF0Command`. -/
structure AMF0Command where
  commandName : AMF0Value
  transactionId : AMF0Value
  commandObject : AMF0Value
  additionalParams : List AMF0Value

/-- The `while (position < buffer.length)` loop collecting the optional
extra parameters of a command message. -/
def parseAMF0Params (fuel : Nat) (buffer : Bytes) (position : Int)
    (acc : List AMF0Value) : Option (Except JsErr (List AMF0Value × Int)) :=
  match fuel with
  | 0 => none
  | fuel + 1 =>
    if position < (buffer.length : Int) then
      match parseAMF0Value fuel buffer position with
      | none => none
      | some (.error e) => some (.error e)
      | some (.ok (v, newPosition)) => parseAMF0Params fuel buffer newPosition (v :: acc)
    else some (.ok (acc.reverse, position))

/-- `parseAMF0Command(buffer)`: command name, transaction id, command
object, then every remaining value as an additional parameter. -/
def parseAMF0Command (fuel : Nat) (buffer : Bytes) :
    Option (Except JsErr AMF0Command) :=
  match parseAMF0Value fuel buffer 0 with
  | none => none
  | some (.error e) => some (.error e)
  | some (.ok (commandName, p1)) =>
    match parseAMF0Value fuel buffer p1 with
    | none => none
    | some (.error e) => some (.error e)
    | some (.ok (transactionId, p2)) =>
      match parseAMF0Value fuel buffer p2 with
      | none => none
      | some (.error e) => some (.error e)
      | some (.ok (commandObject, p3)) =>
        match parseAMF0Params fuel buffer p3 [] with
        | none => none
        | some (.error e) => some (.error e)
        | some (.ok (params, _)) =>
            some (.ok ⟨commandName, transactionId, commandObject, params⟩)

/-! ### Wire-representable values

`amfWFb` delimits the AMF0 values of the §3 data model as they are
representable on the wire: numbers and dates carry exactly 8 byte values,
strings fit the u32 length field with a nonnegative signed read
(`< 2^31`), object keys fit their u16 length field, property keys are
distinct (they come from a JavaScript object), arrays fit a nonnegative
signed u32 count, and every entry of every byte list is a byte. -/

mutual

/-- Wire-representable AMF0 values (decidable, by computation). -/
def amfWFb : AMF0Value → Bool
  | .num bits => bits.length = 8 && bits.all (· < 256)
  | .bool _ => true
  | .str s => s.length < 2 ^ 31 && s.all (· < 256)
  | .obj props =>
      (props.map (fun p => p.1)).Nodup && amfWFbProps props
  | .nullV => true
  | .undef => true
  | .arr elems => elems.length < 2 ^ 31 && amfWFbElems elems
  | .date bits => bits.length = 8 && bits.all (· < 256)

/-- Wire-representability of a property list. -/
def amfWFbProps : List (Bytes × AMF0Value) → Bool
  | [] => true
  | (k, v) :: rest =>
      k.length ≤ 65535 && k.all (· < 256) && amfWFb v && amfWFbProps rest

/-- Wire-representability of the elements of an array. -/
def amfWFbElems : List AMF0Value → Bool
  | [] => true
  | v :: rest => amfWFb v && amfWFbElems rest

end

mutual

/-- Enough fuel to decode the encoding of `v`. -/
def amfFuel : AMF0Value → Nat
  | .obj props => 2 + amfFuelProps props
  | .arr elems => 2 + amfFuelElems elems
  | _ => 1

/-- Fuel for a property list. -/
def amfFuelProps : List (Bytes × AMF0Value) → Nat
  | [] => 0
  | (_, v) :: rest => 1 + amfFuel v + amfFuelProps rest

/-- Fuel for an element list. -/
def amfFuelElems : List AMF0Value → Nat
  | [] => 0
  | v :: rest => 1 + amfFuel v + amfFuelElems rest

end

/-! ### Buffer access lemmas

Reading and slicing at a position `pre.length + k` inside `pre ++ rest`
only sees `rest`; these lemmas let every decoder step be computed with the
already-consumed prefix abstracted away. -/

theorem jsByteOpt_off (pre rest : Bytes) (k : Nat) (i : Int)
    (hi : i = (pre.length : Int) + k) :
    jsByteOpt (pre ++ rest) i = rest[k]? := by
  subst hi
  simp only [jsByteOpt]
  rw [if_pos (by omega)]
  have ht : ((pre.length : Int) + k).toNat = pre.length + k := by omega
  rw [ht, List.getElem?_append_right (Nat.le_add_right _ _)]
  simp

theorem jsByteNum_off (pre rest : Bytes) (k : Nat) (i : Int)
    (hi : i = (pre.length : Int) + k) :
    jsByteNum (pre ++ rest) i = (rest[k]?).getD 0 := by
  rw [jsByteNum, jsByteOpt_off pre rest k i hi]

theorem jsSlice_off (pre rest : Bytes) (k l : Nat) (a b : Int)
    (ha : a = (pre.length : Int) + k) (hb : b = (pre.length : Int) + k + l)
    (h : k + l ≤ rest.length) :
    jsSlice (pre ++ rest) a b = (rest.drop k).take l := by
  subst ha hb
  simp only [jsSlice]
  have h1 : jsIdx (pre ++ rest).length ((pre.length : Int) + k) = pre.length + k := by
    simp only [jsIdx, List.length_append]
    rw [if_neg (by omega)]
    omega
  have h2 : jsIdx (pre ++ rest).length ((pre.length : Int) + k + l) = pre.length + (k + l) := by
    simp only [jsIdx, List.length_append]
    rw [if_neg (by omega)]
    omega
  rw [h1, h2, List.take_append, List.drop_append, List.drop_take]
  have : k + l - k = l := by omega
  rw [this]

theorem jsByteOpt_nonneg (b : Bytes) (i : Int) (h : i < 0) : jsByteOpt b i = none := by
  simp [jsByteOpt]; omega

/-! ### Recombination of byte fields -/

theorem be2_u16be (L : Nat) (h : L ≤ 65535) :
    be2 (jsByteOf L 1) (jsByteOf L 0) = L := by
  simp only [be2, jsByteOf]
  omega

theorem be4signed_u32be (L : Nat) (h : L < 2 ^ 31) :
    be4signed (jsByteOf L 3) (jsByteOf L 2) (jsByteOf L 1) (jsByteOf L 0) = (L : Int) := by
  simp only [be4signed, jsByteOf, toInt32]
  have h1 : L % 2 ^ 32 = L := Nat.mod_eq_of_lt (by omega)
  have h2 : L % 2 ^ 32 / 2 ^ (8 * 3) % 256 * 2 ^ 24 + L % 2 ^ 32 / 2 ^ (8 * 2) % 256 * 2 ^ 16 +
      L % 2 ^ 32 / 2 ^ (8 * 1) % 256 * 2 ^ 8 + L % 2 ^ 32 / 2 ^ (8 * 0) % 256 = L := by
    omega
  rw [h2, h1, if_pos (by omega)]

/-! ### AMF0 round-trip -/

/-- Every encoding starts with a type marker, and 0x09 (`OBJECT_END`) is
never a type marker, so an empty property key can never be mistaken for
the object terminator. -/
theorem encode_headByte (v : AMF0Value) :
    ∃ m, m ≠ 9 ∧ (encodeAMF0Value v)[0]? = some m := by
  cases v with
  | num bits => exact ⟨0, by simp, by simp [encodeAMF0Value]⟩
  | bool b => exact ⟨1, by simp, by simp [encodeAMF0Value]⟩
  | str s =>
      by_cases hs : s.length ≤ 65535
      · exact ⟨2, by simp, by simp [encodeAMF0Value, hs]⟩
      · exact ⟨12, by simp, by simp [encodeAMF0Value, hs]⟩
  | obj props => exact ⟨3, by simp, by simp [encodeAMF0Value]⟩
  | nullV => exact ⟨5, by simp, by simp [encodeAMF0Value]⟩
  | undef => exact ⟨6, by simp, by simp [encodeAMF0Value]⟩
  | arr elems => exact ⟨10, by simp, by simp [encodeAMF0Value]⟩
  | date bits => exact ⟨11, by simp, by simp [encodeAMF0Value]⟩

/-- `obj[key] = value` on a fresh key appends the property. -/
theorem jsInsert_of_not_mem (acc : List (Bytes × AMF0Value)) (k : Bytes) (v : AMF0Value)
    (h : ∀ p ∈ acc, p.1 ≠ k) : jsInsert acc k v = acc ++ [(k, v)] := by
  simp only [jsInsert]
  rw [if_neg]
  simp only [List.any_eq_true, not_exists, not_and]
  intro p hp
  simpa using h p hp

/-- The fuel measure is positive. -/
theorem amfFuel_pos (v : AMF0Value) : 1 ≤ amfFuel v := by
  cases v <;> simp [amfFuel] <;> omega

/-- Round-trip statement for one value: decoding its encoding anywhere in
a larger buffer returns it. -/
def RoundVal (v : AMF0Value) : Prop :=
  ∀ (f : Nat), amfWFb v = true → amfFuel v ≤ f → ∀ (pre post buf : Bytes) (i : Int),
    buf = pre ++ encodeAMF0Value v ++ post → i = (pre.length : Int) →
    parseAMF0Value f buf i = some (.ok (v, i + (encodeAMF0Value v).length))

/-- Round-trip statement for an encoded property list plus terminator. -/
def RoundProps (props : List (Bytes × AMF0Value)) : Prop :=
  ∀ (f : Nat), amfWFbProps props = true → (props.map (fun p => p.1)).Nodup →
    1 + amfFuelProps props ≤ f →
    ∀ (pre post buf : Bytes) (i : Int) (acc : List (Bytes × AMF0Value)),
    buf = pre ++ encodeProps props ++ [0, 0, 9] ++ post → i = (pre.length : Int) →
    (∀ p ∈ acc, ∀ q ∈ props, p.1 ≠ q.1) →
    parseProps f buf i acc =
      some (.ok (.obj (acc ++ props), (pre.length : Int) + (encodeProps props).length + 3))

/-- Round-trip statement for an encoded element list. -/
def RoundElems (elems : List AMF0Value) : Prop :=
  ∀ (f : Nat), amfWFbElems elems = true → 1 + amfFuelElems elems ≤ f →
    ∀ (pre post buf : Bytes) (i : Int) (acc : List AMF0Value),
    buf = pre ++ encodeElems elems ++ post → i = (pre.length : Int) →
    parseElems f buf i elems.length acc =
      some (.ok (.arr (acc.reverse ++ elems), (pre.length : Int) + (encodeElems elems).length))

/-- The decoder inverts the encoder (strong induction on the value size,
covering the mutually recursive value / property-list / element-list
forms at once). -/
theorem parse_encode_rec (n : Nat) :
    (∀ v, sizeOf v ≤ n → RoundVal v) ∧
    (∀ props, sizeOf props ≤ n → RoundProps props) ∧
    (∀ elems, sizeOf elems ≤ n → RoundElems elems) := by
  induction n using Nat.strong_induction_on with
  | _ n ih =>
    refine ⟨?_, ?_, ?_⟩
    · intro v hsz f hwf hf pre post buf i hbuf hi
      subst hbuf hi
      obtain ⟨g, rfl⟩ : ∃ g, f = g + 1 := ⟨f - 1, by have := amfFuel_pos v; omega⟩
      cases v with
      | num bits =>
          have h8 : bits.length = 8 := by
            simp only [amfWFb, Bool.and_eq_true, decide_eq_true_eq] at hwf
            exact hwf.1
          rw [show pre ++ encodeAMF0Value (.num bits) ++ post = pre ++ (0 :: (bits ++ post))
            from by simp [encodeAMF0Value]]
          simp only [parseAMF0Value]
          rw [jsByteOpt_off pre (0 :: (bits ++ post)) 0 _ (by push_cast; ring)]
          simp only [List.getElem?_cons_zero]
          rw [if_pos (by trivial), if_pos (by constructor <;> [skip; omega] <;> (simp; omega))]
          rw [jsSlice_off pre (0 :: (bits ++ post)) 1 8 _ _ (by push_cast; ring)
            (by push_cast; ring) (by simp [h8])]
          simp only [List.drop_succ_cons, List.drop_zero]
          rw [← h8, List.take_left]
          simp only [Option.some.injEq, Except.ok.injEq, Prod.mk.injEq, encodeAMF0Value,
            List.length_cons, h8, true_and]
          push_cast [List.length_nil]
          ring
      | bool b =>
          rw [show pre ++ encodeAMF0Value (.bool b) ++ post =
            pre ++ (1 :: ((if b then 1 else 0) :: post)) from by simp [encodeAMF0Value]]
          simp only [parseAMF0Value]
          rw [jsByteOpt_off pre (1 :: ((if b then 1 else 0) :: post)) 0 _ (by push_cast; ring)]
          rw [jsByteOpt_off pre (1 :: ((if b then 1 else 0) :: post)) 1 _ (by push_cast; ring)]
          simp only [List.getElem?_cons_zero, List.getElem?_cons_succ]
          rw [if_neg (by simp), if_pos (by trivial)]
          have hbv : (decide ¬((some (if b then (1 : Nat) else 0)) = some 0)) = b := by
            cases b <;> simp
          simp only [ne_eq, hbv]
          simp only [Option.some.injEq, Except.ok.injEq, Prod.mk.injEq, encodeAMF0Value,
            List.length_cons, List.length_singleton, true_and]
          push_cast [List.length_nil]
          ring
      | nullV =>
          rw [show pre ++ encodeAMF0Value .nullV ++ post = pre ++ (5 :: post)
            from by simp [encodeAMF0Value]]
          simp only [parseAMF0Value]
          rw [jsByteOpt_off pre (5 :: post) 0 _ (by push_cast; ring)]
          simp only [List.getElem?_cons_zero]
          rw [if_neg (by simp), if_neg (by simp), if_neg (by simp), if_neg (by simp), if_pos (by trivial)]
          simp only [Option.some.injEq, Except.ok.injEq, Prod.mk.injEq, encodeAMF0Value,
            List.length_singleton, true_and]
          push_cast [List.length_nil]
          ring
      | undef =>
          rw [show pre ++ encodeAMF0Value .undef ++ post = pre ++ (6 :: post)
            from by simp [encodeAMF0Value]]
          simp only [parseAMF0Value]
          rw [jsByteOpt_off pre (6 :: post) 0 _ (by push_cast; ring)]
          simp only [List.getElem?_cons_zero]
          rw [if_neg (by simp), if_neg (by simp), if_neg (by simp), if_neg (by simp),
            if_neg (by simp), if_pos (by trivial)]
          simp only [Option.some.injEq, Except.ok.injEq, Prod.mk.injEq, encodeAMF0Value,
            List.length_singleton, true_and]
          push_cast [List.length_nil]
          ring
      | date bits =>
          have h8 : bits.length = 8 := by
            simp only [amfWFb, Bool.and_eq_true, decide_eq_true_eq] at hwf
            exact hwf.1
          rw [show pre ++ encodeAMF0Value (.date bits) ++ post =
            pre ++ (11 :: (bits ++ (0 :: 0 :: post))) from by simp [encodeAMF0Value]]
          simp only [parseAMF0Value]
          rw [jsByteOpt_off pre (11 :: (bits ++ (0 :: 0 :: post))) 0 _ (by push_cast; ring)]
          simp only [List.getElem?_cons_zero]
          rw [if_neg (by simp), if_neg (by simp), if_neg (by simp), if_neg (by simp),
            if_neg (by simp), if_neg (by simp), if_neg (by simp), if_neg (by simp), if_pos (by trivial)]
          rw [if_pos (by constructor <;> [skip; omega] <;> (simp; omega))]
          rw [jsSlice_off pre (11 :: (bits ++ (0 :: 0 :: post))) 1 8 _ _ (by push_cast; ring)
            (by push_cast; ring) (by simp [h8])]
          simp only [List.drop_succ_cons, List.drop_zero]
          rw [← h8, List.take_left]
          simp only [Option.some.injEq, Except.ok.injEq, Prod.mk.injEq, encodeAMF0Value,
            List.length_cons, List.length_append, h8, true_and]
          push_cast [List.length_nil]
          ring
      | str s =>
          have hlt : s.length < 2 ^ 31 := by
            simp only [amfWFb, Bool.and_eq_true, decide_eq_true_eq] at hwf
            exact hwf.1
          by_cases hs : s.length ≤ 65535
          · rw [show pre ++ encodeAMF0Value (.str s) ++ post =
              pre ++ (2 :: (jsByteOf s.length 1 :: jsByteOf s.length 0 :: (s ++ post)))
              from by simp [encodeAMF0Value, hs, u16be]]
            simp only [parseAMF0Value]
            rw [jsByteOpt_off pre (2 :: (jsByteOf s.length 1 :: jsByteOf s.length 0 :: (s ++ post)))
              0 _ (by push_cast; ring)]
            rw [jsByteNum_off pre (2 :: (jsByteOf s.length 1 :: jsByteOf s.length 0 :: (s ++ post)))
              1 _ (by push_cast; ring)]
            rw [jsByteNum_off pre (2 :: (jsByteOf s.length 1 :: jsByteOf s.length 0 :: (s ++ post)))
              2 _ (by push_cast; ring)]
            simp only [List.getElem?_cons_zero, List.getElem?_cons_succ, Option.getD_some]
            rw [if_neg (by simp), if_neg (by simp), if_pos (by trivial)]
            rw [be2_u16be s.length hs]
            rw [jsSlice_off pre (2 :: (jsByteOf s.length 1 :: jsByteOf s.length 0 :: (s ++ post)))
              3 s.length _ _ (by push_cast; ring) (by push_cast; ring) (by simp <;> omega)]
            simp only [List.drop_succ_cons, List.drop_zero]
            rw [List.take_left]
            simp only [Option.some.injEq, Except.ok.injEq, Prod.mk.injEq, encodeAMF0Value, hs,
              if_true, u16be, List.length_cons, List.length_append, true_and]
            push_cast [List.length_nil]
            ring
          · rw [show pre ++ encodeAMF0Value (.str s) ++ post =
              pre ++ (12 :: (jsByteOf s.length 3 :: jsByteOf s.length 2 :: jsByteOf s.length 1 ::
                jsByteOf s.length 0 :: (s ++ post))) from by simp [encodeAMF0Value, hs, u32be]]
            simp only [parseAMF0Value]
            rw [jsByteOpt_off pre (12 :: (jsByteOf s.length 3 :: jsByteOf s.length 2 ::
              jsByteOf s.length 1 :: jsByteOf s.length 0 :: (s ++ post))) 0 _ (by push_cast; ring)]
            rw [jsByteNum_off pre (12 :: (jsByteOf s.length 3 :: jsByteOf s.length 2 ::
              jsByteOf s.length 1 :: jsByteOf s.length 0 :: (s ++ post))) 1 _ (by push_cast; ring)]
            rw [jsByteNum_off pre (12 :: (jsByteOf s.length 3 :: jsByteOf s.length 2 ::
              jsByteOf s.length 1 :: jsByteOf s.length 0 :: (s ++ post))) 2 _ (by push_cast; ring)]
            rw [jsByteNum_off pre (12 :: (jsByteOf s.length 3 :: jsByteOf s.length 2 ::
              jsByteOf s.length 1 :: jsByteOf s.length 0 :: (s ++ post))) 3 _ (by push_cast; ring)]
            rw [jsByteNum_off pre (12 :: (jsByteOf s.length 3 :: jsByteOf s.length 2 ::
              jsByteOf s.length 1 :: jsByteOf s.length 0 :: (s ++ post))) 4 _ (by push_cast; ring)]
            simp only [List.getElem?_cons_zero, List.getElem?_cons_succ, Option.getD_some]
            rw [if_neg (by simp), if_neg (by simp), if_neg (by simp), if_neg (by simp),
              if_neg (by simp), if_neg (by simp), if_neg (by simp), if_neg (by simp),
              if_neg (by simp), if_pos (by trivial)]
            rw [be4signed_u32be s.length hlt]
            rw [jsSlice_off pre (12 :: (jsByteOf s.length 3 :: jsByteOf s.length 2 ::
              jsByteOf s.length 1 :: jsByteOf s.length 0 :: (s ++ post))) 5 s.length _ _
              (by push_cast; ring) (by push_cast; ring) (by simp <;> omega)]
            simp only [List.drop_succ_cons, List.drop_zero]
            rw [List.take_left]
            simp only [Option.some.injEq, Except.ok.injEq, Prod.mk.injEq, encodeAMF0Value, hs,
              if_false, u32be, List.length_cons, List.length_append, true_and]
            push_cast [List.length_nil]
            ring
      | obj props =>
          have hwf' : (props.map (fun p => p.1)).Nodup ∧ amfWFbProps props = true := by
            simpa [amfWFb, Bool.and_eq_true] using hwf
          have hfp : 1 + amfFuelProps props ≤ g := by
            simp only [amfFuel] at hf
            omega
          rw [show pre ++ encodeAMF0Value (.obj props) ++ post =
            pre ++ (3 :: (encodeProps props ++ ([0, 0, 9] ++ post)))
            from by simp [encodeAMF0Value]]
          simp only [parseAMF0Value]
          rw [jsByteOpt_off pre (3 :: (encodeProps props ++ ([0, 0, 9] ++ post))) 0 _
            (by push_cast; ring)]
          simp only [List.getElem?_cons_zero]
          rw [if_neg (by simp), if_neg (by simp), if_neg (by simp), if_pos (by trivial)]
          have hrec : RoundProps props :=
            (ih (sizeOf props)
              (by simp only [AMF0Value.obj.sizeOf_spec] at hsz; omega)).2.1 props le_rfl
          rw [hrec g hwf'.2 hwf'.1 hfp (pre ++ [3]) post _ _ []
            (by simp) (by simp <;> (push_cast ; ring)) (by simp)]
          simp only [Option.some.injEq, Except.ok.injEq, Prod.mk.injEq, List.nil_append,
            encodeAMF0Value, List.length_cons, List.length_append, List.length_nil, true_and]
          push_cast [List.length_nil]
          ring
      | arr elems =>
          have hwf' : elems.length < 2 ^ 31 ∧ amfWFbElems elems = true := by
            simpa [amfWFb, Bool.and_eq_true] using hwf
          have hfe : 1 + amfFuelElems elems ≤ g := by
            simp only [amfFuel] at hf
            omega
          rw [show pre ++ encodeAMF0Value (.arr elems) ++ post =
            pre ++ (10 :: (jsByteOf elems.length 3 :: jsByteOf elems.length 2 ::
              jsByteOf elems.length 1 :: jsByteOf elems.length 0 :: (encodeElems elems ++ post)))
            from by simp [encodeAMF0Value, u32be]]
          simp only [parseAMF0Value]
          rw [jsByteOpt_off pre (10 :: (jsByteOf elems.length 3 :: jsByteOf elems.length 2 ::
            jsByteOf elems.length 1 :: jsByteOf elems.length 0 :: (encodeElems elems ++ post)))
            0 _ (by push_cast; ring)]
          rw [jsByteNum_off pre (10 :: (jsByteOf elems.length 3 :: jsByteOf elems.length 2 ::
            jsByteOf elems.length 1 :: jsByteOf elems.length 0 :: (encodeElems elems ++ post)))
            1 _ (by push_cast; ring)]
          rw [jsByteNum_off pre (10 :: (jsByteOf elems.length 3 :: jsByteOf elems.length 2 ::
            jsByteOf elems.length 1 :: jsByteOf elems.length 0 :: (encodeElems elems ++ post)))
            2 _ (by push_cast; ring)]
          rw [jsByteNum_off pre (10 :: (jsByteOf elems.length 3 :: jsByteOf elems.length 2 ::
            jsByteOf elems.length 1 :: jsByteOf elems.length 0 :: (encodeElems elems ++ post)))
            3 _ (by push_cast; ring)]
          rw [jsByteNum_off pre (10 :: (jsByteOf elems.length 3 :: jsByteOf elems.length 2 ::
            jsByteOf elems.length 1 :: jsByteOf elems.length 0 :: (encodeElems elems ++ post)))
            4 _ (by push_cast; ring)]
          simp only [List.getElem?_cons_zero, List.getElem?_cons_succ, Option.getD_some]
          rw [if_neg (by simp), if_neg (by simp), if_neg (by simp), if_neg (by simp),
            if_neg (by simp), if_neg (by simp), if_neg (by simp), if_pos (by trivial)]
          rw [be4signed_u32be elems.length hwf'.1]
          rw [show ((elems.length : Int)).toNat = elems.length from by omega]
          have hrec : RoundElems elems :=
            (ih (sizeOf elems)
              (by simp only [AMF0Value.arr.sizeOf_spec] at hsz; omega)).2.2 elems le_rfl
          rw [hrec g hwf'.2 hfe
            (pre ++ [10, jsByteOf elems.length 3, jsByteOf elems.length 2,
              jsByteOf elems.length 1, jsByteOf elems.length 0]) post _ _ []
            (by simp) (by simp <;> (push_cast ; ring))]
          simp only [Option.some.injEq, Except.ok.injEq, Prod.mk.injEq, List.reverse_nil,
            List.nil_append, encodeAMF0Value, u32be, List.length_cons, List.length_append,
            List.length_nil, true_and]
          push_cast [List.length_nil]
          ring

    · intro props hsz f hwf hnd hf pre post buf i acc hbuf hi hdisj
      subst hbuf hi
      obtain ⟨g, rfl⟩ : ∃ g, f = g + 1 := ⟨f - 1, by omega⟩
      cases props with
      | nil =>
          rw [show pre ++ encodeProps [] ++ [0, 0, 9] ++ post = pre ++ (0 :: 0 :: 9 :: post)
            from by simp [encodeProps]]
          simp only [parseProps]
          rw [jsByteNum_off pre (0 :: 0 :: 9 :: post) 0 _ (by push_cast; ring)]
          rw [jsByteNum_off pre (0 :: 0 :: 9 :: post) 1 _ (by push_cast; ring)]
          rw [jsByteOpt_off pre (0 :: 0 :: 9 :: post) 2 _ (by push_cast; ring)]
          simp only [List.getElem?_cons_zero, List.getElem?_cons_succ, Option.getD_some]
          rw [if_pos (by constructor <;> simp [be2])]
          simp only [Option.some.injEq, Except.ok.injEq, Prod.mk.injEq, List.append_nil,
            encodeProps, List.length_nil, true_and]
          push_cast [List.length_nil]
          ring
      | cons p rest =>
          obtain ⟨k, v⟩ := p
          have hwfk : k.length ≤ 65535 ∧ amfWFb v = true ∧ amfWFbProps rest = true := by
            simp only [amfWFbProps, Bool.and_eq_true, decide_eq_true_eq] at hwf
            exact ⟨hwf.1.1.1, hwf.1.2, hwf.2⟩
          have hnd' : k ∉ rest.map (fun p => p.1) ∧ (rest.map (fun p => p.1)).Nodup := by
            rw [show (((k, v) :: rest).map (fun p => p.1)) = k :: rest.map (fun p => p.1)
              from by simp, List.nodup_cons] at hnd
            exact hnd
          have hndk : (∀ q ∈ rest, k ≠ q.1) ∧ (rest.map (fun p => p.1)).Nodup :=
            ⟨fun q hq heq => hnd'.1 (List.mem_map.2 ⟨q, hq, heq.symm⟩), hnd'.2⟩
          have hfs : amfFuel v + amfFuelProps rest + 1 ≤ g := by
            simp only [amfFuelProps] at hf
            omega
          rw [show pre ++ encodeProps ((k, v) :: rest) ++ [0, 0, 9] ++ post =
            pre ++ (jsByteOf k.length 1 :: jsByteOf k.length 0 ::
              (k ++ (encodeAMF0Value v ++ (encodeProps rest ++ ([0, 0, 9] ++ post)))))
            from by simp [encodeProps, u16be]]
          simp only [parseProps]
          rw [jsByteNum_off pre (jsByteOf k.length 1 :: jsByteOf k.length 0 ::
            (k ++ (encodeAMF0Value v ++ (encodeProps rest ++ ([0, 0, 9] ++ post)))))
            0 _ (by push_cast; ring)]
          rw [jsByteNum_off pre (jsByteOf k.length 1 :: jsByteOf k.length 0 ::
            (k ++ (encodeAMF0Value v ++ (encodeProps rest ++ ([0, 0, 9] ++ post)))))
            1 _ (by push_cast; ring)]
          simp only [List.getElem?_cons_zero, List.getElem?_cons_succ, Option.getD_some]
          rw [be2_u16be k.length hwfk.1]
          have hcond : ¬(k.length = 0 ∧
              jsByteOpt (pre ++ (jsByteOf k.length 1 :: jsByteOf k.length 0 ::
                (k ++ (encodeAMF0Value v ++ (encodeProps rest ++ ([0, 0, 9] ++ post))))))
                ((pre.length : Int) + 2) = some 9) := by
            rintro ⟨hk0, hb9⟩
            have hknil : k = [] := List.eq_nil_of_length_eq_zero hk0
            subst hknil
            simp only [List.length_nil, List.nil_append] at hb9
            rw [jsByteOpt_off pre (jsByteOf 0 1 :: jsByteOf 0 0 ::
              (encodeAMF0Value v ++ (encodeProps rest ++ ([0, 0, 9] ++ post))))
              2 _ (by push_cast; ring)] at hb9
            obtain ⟨m, hm9, hm⟩ := encode_headByte v
            have hpos : 0 < (encodeAMF0Value v).length := by
              by_contra hc
              push_neg at hc
              rw [List.getElem?_eq_none (by omega)] at hm
              exact Option.noConfusion hm
            rw [List.getElem?_cons_succ, List.getElem?_cons_succ,
              List.getElem?_append, if_pos hpos, hm] at hb9
            exact hm9 (by simpa using hb9)
          rw [if_neg hcond]
          rw [jsSlice_off pre (jsByteOf k.length 1 :: jsByteOf k.length 0 ::
            (k ++ (encodeAMF0Value v ++ (encodeProps rest ++ ([0, 0, 9] ++ post)))))
            2 k.length _ _ (by push_cast; ring) (by push_cast; ring) (by simp <;> omega)]
          simp only [List.drop_succ_cons, List.drop_zero]
          rw [List.take_left]
          have hv : RoundVal v :=
            (ih (sizeOf v)
              (by simp only [List.cons.sizeOf_spec, Prod.mk.sizeOf_spec] at hsz; omega)).1
              v le_rfl
          rw [hv g hwfk.2.1 (by omega)
            (pre ++ [jsByteOf k.length 1, jsByteOf k.length 0] ++ k)
            (encodeProps rest ++ ([0, 0, 9] ++ post)) _ _
            (by simp) (by simp <;> (push_cast ; ring))]
          simp only []
          rw [jsInsert_of_not_mem acc k v (fun p hp => hdisj p hp (k, v) (by simp))]
          have hrest : RoundProps rest :=
            (ih (sizeOf rest)
              (by simp only [List.cons.sizeOf_spec, Prod.mk.sizeOf_spec] at hsz; omega)).2.1
              rest le_rfl
          rw [hrest g hwfk.2.2 hndk.2 (by omega)
            (pre ++ [jsByteOf k.length 1, jsByteOf k.length 0] ++ k ++ encodeAMF0Value v)
            post _ _ (acc ++ [(k, v)])
            (by simp) (by simp <;> (push_cast ; ring))
            (by
              intro p hp q hq
              rcases List.mem_append.1 hp with hp | hp
              · exact hdisj p hp q (List.mem_cons_of_mem _ hq)
              · simp only [List.mem_singleton] at hp
                rw [hp]
                exact hndk.1 q hq)]
          simp only [Option.some.injEq, Except.ok.injEq, Prod.mk.injEq, List.append_assoc,
            List.cons_append, List.nil_append, encodeProps, u16be, List.length_append,
            List.length_cons, List.length_nil, true_and]
          push_cast [List.length_nil]
          ring

    · intro elems hsz f hwf hf pre post buf i acc hbuf hi
      subst hbuf hi
      obtain ⟨g, rfl⟩ : ∃ g, f = g + 1 := ⟨f - 1, by omega⟩
      cases elems with
      | nil =>
          rw [List.length_nil, parseElems]
          simp [encodeElems]
      | cons v rest =>
          have hwfv : amfWFb v = true ∧ amfWFbElems rest = true := by
            simpa [amfWFbElems, Bool.and_eq_true] using hwf
          have hfs : amfFuel v + amfFuelElems rest + 1 ≤ g := by
            simp only [amfFuelElems] at hf
            omega
          rw [List.length_cons, parseElems]
          rw [show pre ++ encodeElems (v :: rest) ++ post =
            pre ++ encodeAMF0Value v ++ (encodeElems rest ++ post)
            from by simp [encodeElems]]
          have hv : RoundVal v :=
            (ih (sizeOf v)
              (by simp only [List.cons.sizeOf_spec] at hsz; omega)).1 v le_rfl
          rw [hv g hwfv.1 (by omega) pre (encodeElems rest ++ post) _ _ rfl rfl]
          simp only []
          rw [show pre ++ encodeAMF0Value v ++ (encodeElems rest ++ post) =
            (pre ++ encodeAMF0Value v) ++ encodeElems rest ++ post from by simp]
          have hrest : RoundElems rest :=
            (ih (sizeOf rest)
              (by simp only [List.cons.sizeOf_spec] at hsz; omega)).2.2 rest le_rfl
          rw [hrest g hwfv.2 (by omega)
            (pre ++ encodeAMF0Value v) post _ _ (v :: acc) rfl (by simp <;> (push_cast ; ring))]
          simp only [Option.some.injEq, Except.ok.injEq, Prod.mk.injEq, List.reverse_cons,
            List.append_assoc, List.singleton_append, encodeElems, List.length_append, true_and]
          push_cast [List.length_nil]
          ring

/-- Specialisation of the round-trip to a whole buffer. -/
theorem parse_encodeAMF0Value_id (v : AMF0Value) (hwf : amfWFb v = true)
    (f : Nat) (hf : amfFuel v ≤ f) :
    parseAMF0Value f (encodeAMF0Value v) 0 =
      some (.ok (v, (encodeAMF0Value v).length)) := by
  have h := (parse_encode_rec (sizeOf v)).1 v le_rfl f hwf hf [] []
    (encodeAMF0Value v) 0 (by simp) (by simp)
  simpa using h



/-- `encodeAMF0Command`: command name, transaction id, `commandObject || null`,
then the additional parameters, all AMF0-encoded and concatenated. -/
def encodeAMF0Command (commandName : Bytes) (transactionId : AMF0Value)
    (commandObject : AMF0Value) (additionalParams : List AMF0Value) : Bytes :=
  encodeAMF0Value (.str commandName) ++ encodeAMF0Value transactionId ++
    encodeAMF0Value (jsOrNull commandObject) ++
    (additionalParams.map encodeAMF0Value).flatten

/-- C2 — round-trip of the AMF0 codec: for every wire-representable value
of the TypeScript AMF0 domain (Number, Boolean, String — short or long —,
Object, Null, Undefined, Strict-Array, Date; an ECMA-Array value is a
JavaScript object and hence covered by the Object case), decoding the
encoding returns exactly the same value — the same 64-bit pattern for
numbers and dates, the same bytes for strings, and the same properties in
the same insertion order for objects — together with the position one past
the encoding. -/
theorem C2_amf0_roundtrip (v : AMF0Value) (hwf : amfWFb v = true) :
    parseAMF0Value (amfFuel v) (encodeAMF0Value v) 0 =
      some (.ok (v, ((encodeAMF0Value v).length : Int))) :=
  parse_encodeAMF0Value_id v hwf (amfFuel v) le_rfl

/-- Witness for C2: a concrete nested value covering every constructor
(including an empty property key) round-trips. -/
theorem C2_amf0_roundtrip_witness :
    amfWFb (AMF0Value.obj [(ascii "app", .str (ascii "live")),
      (ascii "n", .num f64_31), (ascii "flag", .bool true), (ascii "z", .nullV),
      (ascii "u", .undef), (ascii "xs", .arr [.num f64_1, .str []]),
      (ascii "d", .date f64_0), (ascii "", .str (ascii "emptykey"))]) = true ∧
    parseAMF0Value (amfFuel (AMF0Value.obj [(ascii "app", .str (ascii "live")),
      (ascii "n", .num f64_31), (ascii "flag", .bool true), (ascii "z", .nullV),
      (ascii "u", .undef), (ascii "xs", .arr [.num f64_1, .str []]),
      (ascii "d", .date f64_0), (ascii "", .str (ascii "emptykey"))]))
      (encodeAMF0Value (AMF0Value.obj [(ascii "app", .str (ascii "live")),
        (ascii "n", .num f64_31), (ascii "flag", .bool true), (ascii "z", .nullV),
        (ascii "u", .undef), (ascii "xs", .arr [.num f64_1, .str []]),
        (ascii "d", .date f64_0), (ascii "", .str (ascii "emptykey"))])) 0 =
      some (.ok ((AMF0Value.obj [(ascii "app", .str (ascii "live")),
        (ascii "n", .num f64_31), (ascii "flag", .bool true), (ascii "z", .nullV),
        (ascii "u", .undef), (ascii "xs", .arr [.num f64_1, .str []]),
        (ascii "d", .date f64_0), (ascii "", .str (ascii "emptykey"))]),
        ((encodeAMF0Value (AMF0Value.obj [(ascii "app", .str (ascii "live")),
          (ascii "n", .num f64_31), (ascii "flag", .bool true), (ascii "z", .nullV),
          (ascii "u", .undef), (ascii "xs", .arr [.num f64_1, .str []]),
          (ascii "d", .date f64_0), (ascii "", .str (ascii "emptykey"))])).length : Int))) :=
  ⟨by decide, C2_amf0_roundtrip _ (by decide)⟩

/-! ### Truncated AMF0 input (C8)

The decoder has no bounds checks and no `AmfTruncated` error: a truncated
String decodes to whatever bytes are available, an out-of-range or unknown
marker decodes to Null, a truncated Number or Date throws the `DataView`
`RangeError`, and the Object property loop never terminates once it runs
past the end of the buffer. -/

/-- C8 counterexample: on the buffer `[0x02, 0x00, 0x05]` — a String
header claiming 5 bytes with none present — the decoder does not fail; it
returns the fabricated empty string with `newPosition` 8 past the end. -/
theorem C8_counterexample :
    parseAMF0Value 1 [2, 0, 5] 0 = some (.ok (.str [], 8)) := rfl

/-- Reading past the end of a one-byte buffer yields `undefined`. -/
theorem jsByteOpt_short (j : Int) (b : Nat) (h : 1 ≤ j) : jsByteOpt [b] j = none := by
  simp only [jsByteOpt]
  rw [if_pos (by omega), List.getElem?_eq_none (by simp; omega)]

/-- Parsing a value of the one-byte buffer `[3]` at a position past the
end returns Null (the `undefined` marker takes the default branch). -/
theorem parse_short_val (f : Nat) (j : Int) (h : 1 ≤ j) :
    parseAMF0Value f [3] j = none ∨
      parseAMF0Value f [3] j = some (.ok (.nullV, j + 1)) := by
  cases f with
  | zero => exact Or.inl rfl
  | succ g =>
      right
      simp only [parseAMF0Value]
      rw [jsByteOpt_short j 3 h]
      simp

/-- The object property loop of `parseAMF0Value` never terminates once its
position is past the end of the buffer `[3]`: out-of-bounds reads produce
key length 0 and a value byte that is never the `OBJECT_END` marker, so
every fuel is exhausted. -/
theorem parseProps_short_diverges (f : Nat) :
    ∀ (j : Int), 1 ≤ j → ∀ acc, parseProps f [3] j acc = none := by
  induction f with
  | zero => intro j hj acc; rfl
  | succ g ih =>
      intro j hj acc
      simp only [parseProps]
      rw [if_neg (by
        rintro ⟨-, h9⟩
        rw [jsByteOpt_short _ 3 (by omega)] at h9
        exact Option.noConfusion h9)]
      rw [show be2 (jsByteNum [3] j) (jsByteNum [3] (j + 1)) = 0 from by
        simp only [be2, jsByteNum]
        rw [jsByteOpt_short _ 3 (by omega), jsByteOpt_short _ 3 (by omega)]
        rfl]
      rcases parse_short_val g (j + 2 + (0 : Nat)) (by omega) with hv | hv
      · rw [hv]
      · rw [hv]
        exact ih (j + 2 + (0 : Nat) + 1) (by omega) _

/-- C8, as the code actually behaves: a truncated String input (claimed
length positive, no data present) decodes *successfully* to the available
bytes — the empty string — with no error of any kind, and a truncated
Object input makes the decoder diverge; the `AmfTruncated` failure the
specification describes does not exist in the decoder. -/
theorem C8_truncated_behavior :
    (∀ hi lo : Nat, hi < 256 → lo < 256 → 0 < be2 hi lo →
      parseAMF0Value 1 [2, hi, lo] 0 =
        some (.ok (.str [], 3 + ((be2 hi lo : Nat) : Int)))) ∧
    (∀ f : Nat, parseAMF0Value f [3] 0 = none) := by
  constructor
  · intro hi lo _ _ _
    simp only [parseAMF0Value]
    rw [show jsByteOpt [2, hi, lo] 0 = some 2 from rfl]
    rw [if_neg (by simp), if_neg (by simp), if_pos (by trivial)]
    rw [show jsByteNum [2, hi, lo] (0 + 1) = hi from rfl,
      show jsByteNum [2, hi, lo] (0 + 2) = lo from rfl]
    rw [show jsSlice [2, hi, lo] (0 + 3) (0 + 3 + (be2 hi lo : Nat)) = [] from by
      simp only [jsSlice, jsIdx]
      rw [if_neg (by omega), if_neg (by omega)]
      have h3 : ((0 : Int) + 3).toNat = 3 := rfl
      rw [h3]
      have : min 3 ([2, hi, lo].length) = 3 := by simp
      simp only [List.length_cons, List.length_nil]
      rw [List.drop_eq_nil_iff]
      simp <;> omega]
    norm_num
  · intro f
    cases f with
    | zero => rfl
    | succ g =>
        simp only [parseAMF0Value]
        rw [show jsByteOpt [3] 0 = some 3 from rfl]
        rw [if_neg (by simp), if_neg (by simp), if_neg (by simp), if_pos (by trivial)]
        exact parseProps_short_diverges g (0 + 1) (by omega) []

/-- Witness for C8 (amended): both behaviours at concrete inputs. -/
theorem C8_truncated_behavior_witness :
    parseAMF0Value 1 [2, 0, 5] 0 = some (.ok (.str [], 3 + ((be2 0 5 : Nat) : Int))) ∧
      parseAMF0Value 7 [3] 0 = none :=
  ⟨C8_truncated_behavior.1 0 5 (by decide) (by decide) (by decide),
    C8_truncated_behavior.2 7⟩

end Streamany

namespace Streamany

/-! ## Chunk writer (`src/core/chunk.ts`) -/

/-- JavaScript `x || d` for an optional numeric field (`chunk.timestamp || 0`,
`chunk.messageLength || data.length`, …): an absent (`undefined`) or zero
value falls back to the default. -/
def jsOrNum (x : Option Nat) (d : Nat) : Nat :=
  match x with
  | none => d
  | some n => if n = 0 then d else n

/-- `sendChunk`: serialise one chunk — basic header (1–3 bytes chosen by
the chunk stream id), fmt-dependent message header, then the data.  All
stores go through a `Uint8Array`, so every stored byte is reduced mod 256
(`jsByteOf` already is); `(fmt << 6) | csid` equals `fmt * 2^6 + csid`
because each branch guarantees the low six bits are disjoint from the
shifted fmt.  The message stream id is written LITTLE-endian.  An fmt
outside 0..3 would throw (`Invalid chunk format type`); it is unreachable
from the `FMT` enum and returns `[]` here. -/
def sendChunk (fmt : Nat) (chunkStreamId : Nat)
    (timestamp? messageLength? messageTypeId? messageStreamId? : Option Nat)
    (data : Bytes) : Bytes :=
  let basicHeader : Bytes :=
    if chunkStreamId < 64 then [fmt * 2 ^ 6 + chunkStreamId]
    else if chunkStreamId < 320 then
      [fmt * 2 ^ 6, (chunkStreamId - 64) % 256]
    else
      [fmt * 2 ^ 6 + 1, (chunkStreamId - 64) % 256, jsByteOf (chunkStreamId - 64) 1]
  let messageHeader : Bytes :=
    if fmt = 0 then
      let timestamp := jsOrNum timestamp? 0
      let messageLength := jsOrNum messageLength? data.length
      let messageTypeId := jsOrNum messageTypeId? 0
      let messageStreamId := jsOrNum messageStreamId? 0
      [jsByteOf timestamp 2, jsByteOf timestamp 1, jsByteOf timestamp 0,
       jsByteOf messageLength 2, jsByteOf messageLength 1, jsByteOf messageLength 0,
       messageTypeId % 256,
       jsByteOf messageStreamId 0, jsByteOf messageStreamId 1,
       jsByteOf messageStreamId 2, jsByteOf messageStreamId 3]
    else if fmt = 1 then
      let timestampDelta := jsOrNum timestamp? 0
      let msgLength := jsOrNum messageLength? data.length
      [jsByteOf timestampDelta 2, jsByteOf timestampDelta 1, jsByteOf timestampDelta 0,
       jsByteOf msgLength 2, jsByteOf msgLength 1, jsByteOf msgLength 0,
       jsOrNum messageTypeId? 0 % 256]
    else if fmt = 2 then
      let timeDelta := jsOrNum timestamp? 0
      [jsByteOf timeDelta 2, jsByteOf timeDelta 1, jsByteOf timeDelta 0]
    else if fmt = 3 then []
    else []
  basicHeader ++ messageHeader ++ data

/-- The continuation of `sendMessage`'s chunking loop
(`for (offset = chunkSize; offset < totalLength; offset += chunkSize)`):
every further slice of at most `chunkSize` bytes goes out as an fmt-3
chunk.  The loop does not terminate in JavaScript when `chunkSize = 0`;
the fuel (`rest.length` at the first call suffices when `chunkSize ≥ 1`)
makes that explicit. -/
def sendMessageRest (chunkStreamId chunkSize : Nat) : Nat → Bytes → Bytes
  | _, [] => []
  | 0, _ => []
  | fuel + 1, rest =>
      sendChunk 3 chunkStreamId none none none none (rest.take chunkSize) ++
        sendMessageRest chunkStreamId chunkSize fuel (rest.drop chunkSize)

/-- `sendMessage`: fragment a message into chunks — the first chunk is
fmt 0 with the full header (timestamp hard-coded to 0), the rest are
fmt 3; every chunk carries at most `chunkSize` payload bytes.  A payload
of length 0 sends nothing (the loop body never runs). -/
def sendMessage (type : Nat) (payload : Bytes)
    (chunkStreamId messageStreamId chunkSize : Nat) : Bytes :=
  if payload.length = 0 then []
  else
    sendChunk 0 chunkStreamId (some 0) (some payload.length) (some type)
        (some messageStreamId) (payload.take chunkSize) ++
      sendMessageRest chunkStreamId chunkSize payload.length (payload.drop chunkSize)

/-! ## Chunk reader (`src/core/rtmp.ts`) -/

/-- `read(conn, size)`: a single `conn.read` into a `size`-byte buffer.
The model delivers everything available up to `size` (a closed peer gives
`null`, modelled `none`).  A zero-length buffer returns without reading;
a negative size cannot allocate the buffer (it also yields `none`, which
like a `null` ends chunk reading). -/
def jsRead (s : Bytes) (n : Int) : Option (Bytes × Bytes) :=
  if n = 0 then some ([], s)
  else if n < 0 then none
  else if s.isEmpty then none
  else some (s.take n.toNat, s.drop n.toNat)

/-- `byte_3_to_number`: asserts a 3-byte input (an `assertEquals` failure
throws, modelled `none`), then `(b0 << 16) | (b1 << 8) | b2` — positive
for byte inputs. -/
def byte_3_to_number (bytes : Bytes) : Option Nat :=
  match bytes with
  | [b0, b1, b2] => some (be3 b0 b1 b2)
  | _ => none

/-- `byte_4_to_number`: asserts a 4-byte input, then
`(b0 << 24) | (b1 << 16) | (b2 << 8) | b3` — a generic *big-endian* signed
32-bit read. -/
def byte_4_to_number (bytes : Bytes) : Option Int :=
  match bytes with
  | [b0, b1, b2, b3] => some (be4signed b0 b1 b2 b3)
  | _ => none

/-- `readBasicHeader`: reads one byte; `fmt` is its top two bits.
`chunk_stream_id` starts as the whole byte; the branches for the whole
byte equal to 0 (“2 bytes”) or 1 (“3 bytes”) have empty bodies — they
read nothing and leave `chunk_stream_id` as 0 resp. 1 — and every other
byte is masked to its low six bits. -/
def readBasicHeader (s : Bytes) : Option (Nat × Nat × Bytes) :=
  match jsRead s 1 with
  | none => none
  | some (h1, rest) =>
      match h1 with
      | [b] =>
          some (b / 2 ^ 6,
                if b = 0 then b else if b = 1 then b else b % 64,
                rest)
      | _ => none

/-- The decompressed-in-part message header of one chunk, as the reader
builds it (fields absent for the compressed formats are simply missing). -/
inductive MsgHeader where
  | t0 (timestamp message_length message_type_id : Nat) (message_stream_id : Int)
  | t1 (timestamp message_length message_type_id : Nat)
  | t2 (timestamp : Nat)
  | t3
deriving DecidableEq, Repr

/-- `readMessageHeader`: fmt 0 reads 11 bytes (`message_stream_id` through
the big-endian `byte_4_to_number`); fmt 1 reads 7 bytes; fmt 2 also reads
**7** bytes in the source (although its header is only 3 bytes long) and
keeps just the timestamp; fmt 3 reads nothing. -/
def readMessageHeader (fmt : Nat) (s : Bytes) : Option (MsgHeader × Bytes) :=
  if fmt = 0 then
    match jsRead s 11 with
    | none => none
    | some (header, rest) =>
        match byte_3_to_number (header.take 3),
              byte_3_to_number ((header.drop 3).take 3),
              byte_4_to_number ((header.drop 7).take 4) with
        | some ts, some len, some msid =>
            some (.t0 ts len (((header.drop 6).take 1).headD 0) msid, rest)
        | _, _, _ => none
  else if fmt = 1 then
    match jsRead s 7 with
    | none => none
    | some (header, rest) =>
        match byte_3_to_number (header.take 3),
              byte_3_to_number ((header.drop 3).take 3) with
        | some ts, some len =>
            some (.t1 ts len (((header.drop 6).take 1).headD 0), rest)
        | _, _ => none
  else if fmt = 2 then
    match jsRead s 7 with
    | none => none
    | some (header, rest) =>
        match byte_3_to_number (header.take 3) with
        | some ts => some (.t2 ts, rest)
        | none => none
  else some (.t3, s)

/-- Full chunk header: basic header plus message header
(`extended_timestamp` is always `undefined`; a 0xFFFFFF timestamp hits
`throw "not implemented"`). -/
structure ChunkHeader where
  chunk_stream_id : Nat
  message_header : MsgHeader
deriving DecidableEq, Repr

/-- One received chunk. -/
structure Chunk where
  header : ChunkHeader
  data : Bytes
deriving DecidableEq, Repr

/-- `readChunkHeader`: basic header, message header, then the extended
timestamp check, which throws (`none`) whenever a non-fmt-3 header carries
the 24-bit sentinel 0xFFFFFF. -/
def readChunkHeader (s : Bytes) : Option (ChunkHeader × Bytes) :=
  match readBasicHeader s with
  | none => none
  | some (fmt, chunk_stream_id, rest) =>
      match readMessageHeader fmt rest with
      | none => none
      | some (mh, rest2) =>
          match mh with
          | .t3 => some (⟨chunk_stream_id, mh⟩, rest2)
          | .t0 ts _ _ _ =>
              if ts = 0xFFFFFF then none else some (⟨chunk_stream_id, mh⟩, rest2)
          | .t1 ts _ _ =>
              if ts = 0xFFFFFF then none else some (⟨chunk_stream_id, mh⟩, rest2)
          | .t2 ts =>
              if ts = 0xFFFFFF then none else some (⟨chunk_stream_id, mh⟩, rest2)

/-- Result of `readChunk`: a chunk and the remaining stream, a clean
`null` end (`eof`), or a thrown header error (`err`).  Both `eof` and
`err` end the chunk generator. -/
inductive ChunkReadResult where
  | ok (c : Chunk) (rest : Bytes)
  | eof
  | err
deriving DecidableEq, Repr

/-- `readChunk`: header, then `sizeToRead` payload bytes, where
`sizeToRead` is the inbound chunk size except for an fmt-0 chunk whose
whole message is shorter than one chunk. -/
def readChunk (chunkSize : Int) (s : Bytes) : ChunkReadResult :=
  match readChunkHeader s with
  | none => .err
  | some (chunk_header, rest) =>
      let sizeToRead : Int :=
        match chunk_header.message_header with
        | .t0 _ message_length _ _ =>
            if (message_length : Int) < chunkSize then (message_length : Int) else chunkSize
        | _ => chunkSize
      match jsRead rest sizeToRead with
      | none => .eof
      | some (data, rest2) => .ok ⟨chunk_header, data⟩ rest2

/-- `chunkStream`: pull chunks until the reader stops.  Every successful
`readChunk` consumes at least the basic-header byte, so fuel
`s.length + 1` always reaches the end of the stream. -/
def chunkStream (chunkSize : Int) : Nat → Bytes → List Chunk
  | 0, _ => []
  | fuel + 1, s =>
      match readChunk chunkSize s with
      | .ok c rest => c :: chunkStream chunkSize fuel rest
      | _ => []

/-! ## Message reassembly (`src/core/messages.ts`) -/

/-- The message-level header (`MessageHeader` in `messages.ts`). -/
structure MessageHeader where
  type : Nat
  payload_length : Nat
  timestamp : Nat
  message_stream_id : Int
deriving DecidableEq, Repr

/-- A reassembled message. -/
structure Message where
  header : MessageHeader
  payload : Bytes
deriving DecidableEq, Repr

/-- Per-CSID reassembly accumulator (the entries of `messageStreams`). -/
structure MessageStreamAcc where
  messageHeader : Option MessageHeader
  totalLength : Nat
  collectedLength : Nat
  chunks : List Chunk
deriving DecidableEq, Repr

/-- `Map.get`. -/
def mapGet {α : Type} (m : List (Nat × α)) (k : Nat) : Option α :=
  (m.find? (fun p => p.1 = k)).map (fun p => p.2)

/-- `Map.set`: update in place or append. -/
def mapSet {α : Type} (m : List (Nat × α)) (k : Nat) (v : α) : List (Nat × α) :=
  if m.any (fun p => p.1 = k) then
    m.map (fun p => if p.1 = k then (k, v) else p)
  else m ++ [(k, v)]

/-- `assembleMessage`: copy the collected chunk payloads into a zero-filled
buffer of `totalLength` bytes, truncating at the target length (the copy
loop `break`s at `offset ≥ totalLength` and `dataToWrite` clamps the last
chunk); a missing header yields `null`. -/
def assembleMessage (messageStream : MessageStreamAcc) : Option Message :=
  match messageStream.messageHeader with
  | none => none
  | some h =>
      let cat := (messageStream.chunks.map (fun c => c.data)).flatten
      some ⟨h, cat.take messageStream.totalLength ++
        List.replicate (messageStream.totalLength - cat.length) 0⟩

/-- One iteration of the `messagesFromChunks` loop: returns the updated
`messageStreams` map and the messages yielded for this chunk.  A Type-0
chunk starts a new message (first yielding a pending partial one, the
lenient policy); a non-Type-0 chunk without prior state is skipped; after
a completed message the CSID is re-registered with the old header and
`totalLength` 0. -/
def stepChunk (messageStreams : List (Nat × MessageStreamAcc)) (chunk : Chunk) :
    List (Nat × MessageStreamAcc) × List Message :=
  let chunkStreamId := chunk.header.chunk_stream_id
  match chunk.header.message_header with
  | .t0 ts len mtid msid =>
      let pending : List Message :=
        match mapGet messageStreams chunkStreamId with
        | some ms => if 0 < ms.collectedLength then (assembleMessage ms).toList else []
        | none => []
      let ms2 : MessageStreamAcc :=
        ⟨some ⟨mtid, len, ts, msid⟩, len, chunk.data.length, [chunk]⟩
      if ms2.totalLength ≤ ms2.collectedLength then
        (mapSet messageStreams chunkStreamId ⟨ms2.messageHeader, 0, 0, []⟩,
         pending ++ (assembleMessage ms2).toList)
      else
        (mapSet messageStreams chunkStreamId ms2, pending)
  | _ =>
      match mapGet messageStreams chunkStreamId with
      | none => (messageStreams, [])
      | some ms1 =>
          let ms2 : MessageStreamAcc :=
            ⟨ms1.messageHeader, ms1.totalLength,
             ms1.collectedLength + chunk.data.length, ms1.chunks ++ [chunk]⟩
          if ms2.totalLength ≤ ms2.collectedLength then
            (mapSet messageStreams chunkStreamId ⟨ms2.messageHeader, 0, 0, []⟩,
             (assembleMessage ms2).toList)
          else
            (mapSet messageStreams chunkStreamId ms2, [])

/-- Fold `stepChunk` over a chunk list, accumulating the yielded messages. -/
def runChunks (st : List (Nat × MessageStreamAcc)) (chunks : List Chunk) :
    List (Nat × MessageStreamAcc) × List Message :=
  chunks.foldl (fun acc c =>
    ((stepChunk acc.1 c).1, acc.2 ++ (stepChunk acc.1 c).2)) (st, [])

/-- `messagesFromChunks` on a finite chunk sequence. -/
def messagesFromChunks (chunks : List Chunk) : List Message :=
  (runChunks [] chunks).2

/-- The inbound pipeline below the handshake: parse the byte stream into
chunks with a fixed inbound chunk size, then reassemble. -/
def messagesOfStream (chunkSize : Int) (s : Bytes) : List Message :=
  messagesFromChunks (chunkStream chunkSize (s.length + 1) s)

/-- Whether a message header is the Type-0 (full) form — the discriminant
of the `chunk.header.message_header.message_type` test in
`messagesFromChunks`. -/
def MsgHeader.isFmt0 : MsgHeader → Bool
  | .t0 _ _ _ _ => true
  | _ => false

/-- The RTMP handshake of the accept loop, from the server's point of
view.  `s1_time` and `s1_random` are the random S1 fields the server drew;
`input` is the client's byte stream.  Returns `none` when the connection
is closed or an `assertEquals` throws (c0 version ≠ 3, short reads, or a
C2/S1 mismatch), otherwise the full byte sequence written
(S0, S1, then S2 = `c1_time ++ c1_time ++ c1_randome`) and the unread
remainder of the input. -/
def handshake (s1_time s1_random : Bytes) (input : Bytes) : Option (Bytes × Bytes) :=
  match jsRead input 1 with
  | none => none
  | some (c0, r1) =>
      if jsByteOpt c0 0 ≠ some 3 then none
      else
        match jsRead r1 4 with
        | none => none
        | some (c1_time, r2) =>
            match jsRead r2 4 with
            | none => none
            | some (_c1_zero, r3) =>
                match jsRead r3 1528 with
                | none => none
                | some (c1_randome, r4) =>
                    match jsRead r4 1536 with
                    | none => none
                    | some (c2, r5) =>
                        if jsSlice c2 0 4 = s1_time ∧ jsSlice c2 4 8 = [0, 0, 0, 0] ∧
                            jsSlice c2 8 1536 = s1_random then
                          some ([3] ++ s1_time ++ [0, 0, 0, 0] ++ s1_random ++
                                (c1_time ++ c1_time ++ c1_randome), r5)
                        else none

/-- The messages a connection delivers to `handleMessage`: none at all if
the handshake aborts, otherwise the reassembled messages of the remaining
input stream. -/
def connMessages (s1_time s1_random : Bytes) (chunkSize : Int) (input : Bytes) :
    List Message :=
  match handshake s1_time s1_random input with
  | none => []
  | some (_, rest) => messagesOfStream chunkSize rest

end Streamany

namespace Streamany

/-- C4 — the `message_stream_id` field of an fmt-0 header is decoded by
the generic big-endian `byte_4_to_number`: on the wire bytes `[1,0,0,0]`
(the little-endian encoding of stream id 1, as the writer itself emits) it
produces 2^24 = 16777216, not 1; timestamp and message_length in the same
header are decoded big-endian. -/
theorem C4_msid_decoded_bigendian :
    byte_4_to_number [1, 0, 0, 0] = some 16777216 ∧
    readMessageHeader 0 [0, 0, 0, 0, 0, 1, 8, 1, 0, 0, 0] =
      some (.t0 0 1 8 16777216, []) ∧
    (16777216 : Int) ≠ 1 + 0 * 2 ^ 8 + 0 * 2 ^ 16 + 0 * 2 ^ 24 :=
  ⟨rfl, rfl, by decide⟩

/-- C5 — `readBasicHeader` never reads the extension bytes: on a basic
header byte with low six bits 0 it consumes nothing more and returns
chunk stream id 0 (instead of reading one byte and returning byte + 64 =
69 here), on low six bits 1 it returns 1 (instead of reading two bytes
little-endian and returning 42 + 256 + 64 = 362 here), and for a nonzero
fmt the same six-bit value is masked to 0. -/
theorem C5_basic_header_no_extension :
    readBasicHeader [0, 5] = some (0, 0, [5]) ∧
    readBasicHeader [1, 42, 1] = some (0, 1, [42, 1]) ∧
    readBasicHeader [0xC0, 5] = some (3, 0, [5]) ∧
    (0 : Nat) ≠ 5 + 64 ∧ (1 : Nat) ≠ 42 + 1 * 2 ^ 8 + 64 :=
  ⟨rfl, rfl, rfl, by decide, by decide⟩

set_option maxRecDepth 100000 in
/-- C1 counterexample: the single-byte message `[170]` of type 8 sent on
chunk stream 3 with message stream id 1 and chunk size 1, fed back through
the chunk reader and reassembler, comes out as one message whose
`message_stream_id` is 16777216 — not the 1 that was sent. -/
theorem C1_roundtrip_counterexample :
    messagesOfStream 1 (sendMessage 8 [170] 3 1 1) =
      [⟨⟨8, 1, 0, 16777216⟩, [170]⟩] ∧ (16777216 : Int) ≠ 1 :=
  ⟨rfl, by decide⟩

/-! ### The round-trip that does hold (C1 amended) -/

/-- The 32-bit byte-reversal: the number whose big-endian bytes are the
little-endian bytes of `m`. -/
def byteswap32 (m : Nat) : Nat :=
  m % 256 * 2 ^ 24 + m / 2 ^ 8 % 256 * 2 ^ 16 + m / 2 ^ 16 % 256 * 2 ^ 8 + m / 2 ^ 24 % 256

theorem jsOrNum_some_zero (n : Nat) : jsOrNum (some n) 0 = n := by
  simp only [jsOrNum]
  split <;> omega

theorem jsOrNum_some_of_ne (n d : Nat) (h : n ≠ 0) : jsOrNum (some n) d = n := by
  simp [jsOrNum, h]

theorem jsByteOf_zero (k : Nat) : jsByteOf 0 k = 0 := by
  simp [jsByteOf]

theorem be3_u24 (L : Nat) (h : L < 2 ^ 24) :
    be3 (jsByteOf L 2) (jsByteOf L 1) (jsByteOf L 0) = L := by
  simp only [be3, jsByteOf]
  omega

theorem be4signed_swap (m : Nat) (h : m < 2 ^ 32) :
    be4signed (jsByteOf m 0) (jsByteOf m 1) (jsByteOf m 2) (jsByteOf m 3) =
      toInt32 (byteswap32 m) := by
  have harg : jsByteOf m 0 * 2 ^ 24 + jsByteOf m 1 * 2 ^ 16 +
      jsByteOf m 2 * 2 ^ 8 + jsByteOf m 3 = byteswap32 m := by
    simp only [jsByteOf, byteswap32]
    omega
  rw [be4signed, harg]

/-- The byte stream `sendMessage` produces, in cons-normal form, for a
compact-form chunk stream id and a nonempty payload. -/
theorem sendMessage_bytes (type : Nat) (payload : Bytes) (csid msid S : Nat)
    (hL : 1 ≤ payload.length) (hcs : csid < 64) :
    sendMessage type payload csid msid S =
      csid :: 0 :: 0 :: 0 ::
        jsByteOf payload.length 2 :: jsByteOf payload.length 1 :: jsByteOf payload.length 0 ::
        type % 256 ::
        jsByteOf (jsOrNum (some msid) 0) 0 :: jsByteOf (jsOrNum (some msid) 0) 1 ::
        jsByteOf (jsOrNum (some msid) 0) 2 :: jsByteOf (jsOrNum (some msid) 0) 3 ::
        (payload.take S ++ sendMessageRest csid S payload.length (payload.drop S)) := by
  rw [sendMessage, if_neg (by omega)]
  simp only [sendChunk]
  rw [if_pos hcs, if_pos (by trivial)]
  rw [jsOrNum_some_zero 0, jsOrNum_some_of_ne payload.length _ (by omega)]
  have htype : jsOrNum (some type) 0 = type := jsOrNum_some_zero type
  rw [htype]
  simp [jsByteOf_zero]

/-- Length of one fmt-3 chunk: basic header plus the data. -/
theorem sendChunk3_length (csid : Nat) (d : Bytes) :
    (sendChunk 3 csid none none none none d).length =
      (if csid < 64 then 1 else if csid < 320 then 2 else 3) + d.length := by
  by_cases h1 : csid < 64
  · simp [sendChunk, h1]
    omega
  · by_cases h2 : csid < 320 <;> simp [sendChunk, h1, h2] <;> omega

/-- The fmt-3 continuation bytes are at least as long as the remaining
payload they carry. -/
theorem sendMessageRest_length (csid S : Nat) (hS : 1 ≤ S) :
    ∀ (fuel : Nat) (rest : Bytes), rest.length ≤ fuel →
    rest.length ≤ (sendMessageRest csid S fuel rest).length := by
  intro fuel
  induction fuel with
  | zero =>
      intro rest h
      have hnil : rest = [] := List.eq_nil_of_length_eq_zero (by omega)
      subst hnil
      simp [sendMessageRest]
  | succ g ih =>
      intro rest h
      cases rest with
      | nil => simp [sendMessageRest]
      | cons b t =>
          rw [sendMessageRest, List.length_append, sendChunk3_length]
          have hlen : (List.drop S (b :: t)).length ≤ g := by
            simp only [List.length_drop, List.length_cons] at h ⊢
            omega
          have hdrop := ih _ hlen
          simp only [List.length_take, List.length_drop, List.length_cons] at hdrop ⊢
          split_ifs <;> omega
          simp

theorem mapGet_nil {α : Type} (k : Nat) : mapGet ([] : List (Nat × α)) k = none := rfl

theorem mapGet_single {α : Type} (k : Nat) (a : α) : mapGet [(k, a)] k = some a := by
  simp [mapGet, List.find?]

theorem mapSet_nil {α : Type} (k : Nat) (v : α) : mapSet [] k v = [(k, v)] := by
  simp [mapSet]

theorem mapSet_single {α : Type} (k : Nat) (a b : α) : mapSet [(k, a)] k b = [(k, b)] := by
  simp [mapSet]

/-- Unfolding `runChunks` one chunk at a time. -/
theorem runChunks_cons (st : List (Nat × MessageStreamAcc)) (c : Chunk) (l : List Chunk) :
    runChunks st (c :: l) =
      ((runChunks (stepChunk st c).1 l).1,
        (stepChunk st c).2 ++ (runChunks (stepChunk st c).1 l).2) := by
  have key : ∀ (l : List Chunk) (st : List (Nat × MessageStreamAcc)) (ms : List Message),
      l.foldl (fun acc c => ((stepChunk acc.1 c).1, acc.2 ++ (stepChunk acc.1 c).2)) (st, ms) =
        ((runChunks st l).1, ms ++ (runChunks st l).2) := by
    intro l
    induction l with
    | nil => intro st ms; simp [runChunks]
    | cons c t ih =>
        intro st ms
        rw [runChunks, List.foldl_cons, ih, List.foldl_cons, ih]
        simp
  rw [runChunks, List.foldl_cons, key]
  simp

theorem runChunks_nil (st : List (Nat × MessageStreamAcc)) : runChunks st [] = (st, []) := rfl

end Streamany

namespace Streamany

/-- The continuation chunks carry no message header. -/
theorem sendMessageRest_nil (csid S fuel : Nat) : sendMessageRest csid S fuel [] = [] := by
  cases fuel <;> rfl

/-- Reading one fmt-3 chunk from the head of a stream whose basic header
byte is `(3 << 6) | csid` for a compact-form `csid`. -/
theorem readChunk_fmt3 (csid S : Nat) (hcs2 : 2 ≤ csid) (hcs63 : csid ≤ 63)
    (hS : 1 ≤ S) (body : Bytes) (hbody : body ≠ []) :
    readChunk (S : Int) ((3 * 2 ^ 6 + csid) :: body) =
      .ok ⟨⟨csid, .t3⟩, body.take S⟩ (body.drop S) := by
  rw [readChunk]
  rw [show readChunkHeader ((3 * 2 ^ 6 + csid) :: body) = some (⟨csid, .t3⟩, body) from by
    rw [readChunkHeader]
    rw [show readBasicHeader ((3 * 2 ^ 6 + csid) :: body) = some (3, csid, body) from by
      rw [readBasicHeader]
      rw [show jsRead ((3 * 2 ^ 6 + csid) :: body) 1 = some ([3 * 2 ^ 6 + csid], body) from by
        simp [jsRead]]
      simp only []
      rw [if_neg (by omega), if_neg (by omega)]
      rw [show (3 * 2 ^ 6 + csid) / 2 ^ 6 = 3 from by omega,
        show (3 * 2 ^ 6 + csid) % 64 = csid from by omega]
    ]
    simp only []
    rw [show readMessageHeader 3 body = some (.t3, body) from by
      rw [readMessageHeader, if_neg (by omega), if_neg (by omega), if_neg (by omega)]]
  ]
  simp only []
  rw [show jsRead body (S : Int) = some (body.take S, body.drop S) from by
    rw [jsRead, if_neg (by omega), if_neg (by omega),
      if_neg (by simp [List.isEmpty_iff]; exact hbody)]
    rw [show ((S : Int)).toNat = S from by omega]]

/-- Feeding the fmt-3 continuation chunks of the remaining payload into
the reassembler completes the in-flight message exactly once. -/
theorem rest_roundtrip (csid S : Nat) (hcs2 : 2 ≤ csid) (hcs63 : csid ≤ 63)
    (hS : 1 ≤ S) (h : MessageHeader) (L : Nat) :
    ∀ (fuel : Nat) (rest : Bytes), rest ≠ [] → rest.length ≤ fuel →
    ∀ (sfuel : Nat), rest.length + 1 ≤ sfuel →
    ∀ (cs : List Chunk) (collected : Nat),
    collected = ((cs.map (fun c => c.data)).flatten).length →
    L = collected + rest.length →
    runChunks [(csid, ⟨some h, L, collected, cs⟩)]
        (chunkStream (S : Int) sfuel (sendMessageRest csid S fuel rest)) =
      ([(csid, ⟨some h, 0, 0, []⟩)],
       [⟨h, (cs.map (fun c => c.data)).flatten ++ rest⟩]) := by
  intro fuel
  induction fuel with
  | zero =>
      intro rest hne hlen
      exact absurd (List.eq_nil_of_length_eq_zero (by omega)) hne
  | succ g ih =>
      intro rest hne hlen sfuel hsf cs collected hcol hL
      obtain ⟨b, t, rfl⟩ : ∃ b tl, rest = b :: tl := by
        cases rest with
        | nil => exact absurd rfl hne
        | cons b tl => exact ⟨b, tl, rfl⟩
      obtain ⟨u, rfl⟩ : ∃ u, sfuel = u + 1 := ⟨sfuel - 1, by omega⟩
      have hlc : (b :: t).length = t.length + 1 := by simp
      rw [show sendMessageRest csid S (g + 1) (b :: t) =
        sendChunk 3 csid none none none none ((b :: t).take S) ++
          sendMessageRest csid S g ((b :: t).drop S) from by
        rw [sendMessageRest]
        simp]
      rw [show sendChunk 3 csid none none none none ((b :: t).take S) =
        (3 * 2 ^ 6 + csid) :: (b :: t).take S from by
          simp [sendChunk, show csid < 64 from by omega]]
      rw [List.cons_append, chunkStream]
      by_cases hcase : (b :: t).length ≤ S
      · -- last chunk: all of `rest` rides in it and the stream ends
        have hdrop : (b :: t).drop S = [] := by
          rw [List.drop_eq_nil_iff]
          omega
        have htake : (b :: t).take S = b :: t := List.take_of_length_le hcase
        rw [hdrop, sendMessageRest_nil, List.append_nil, htake]
        rw [readChunk_fmt3 csid S hcs2 hcs63 hS (b :: t) (by simp)]
        rw [htake, hdrop]
        simp only []
        rw [show chunkStream (S : Int) u [] = [] from by cases u <;> rfl]
        rw [runChunks_cons, runChunks_nil]
        simp only [stepChunk]
        rw [mapGet_single]
        simp only []
        rw [if_pos (by omega)]
        rw [mapSet_single]
        simp only [assembleMessage, List.map_append, List.flatten_append]
        rw [show ((cs.map (fun c => c.data)).flatten ++ ([(⟨⟨csid, .t3⟩, b :: t⟩ :
            Chunk)].map (fun c => c.data)).flatten).take L =
            (cs.map (fun c => c.data)).flatten ++ b :: t from by
          simp only [List.map_cons, List.map_nil, List.flatten_cons, List.flatten_nil,
            List.append_nil]
          refine List.take_of_length_le ?_
          simp only [List.length_append, List.length_cons]
          omega]
        have hsum : (List.map (fun c => c.data) cs).flatten.length =
            (List.map (List.length ∘ fun c => c.data) cs).sum := by simp
        simp
        omega
      · -- a full `S`-byte chunk, message still incomplete
        have htlen : ((b :: t).take S).length = S := by
          simp
          omega
        rw [readChunk_fmt3 csid S hcs2 hcs63 hS _ (by
          intro hc
          have := congrArg List.length hc
          rw [List.length_append, htlen] at this
          simp at this
          omega)]
        rw [List.take_append_of_le_length (by omega), List.take_take, min_self,
          List.drop_left' htlen]
        simp only []
        rw [runChunks_cons]
        simp only [stepChunk]
        rw [mapGet_single]
        simp only []
        rw [if_neg (by rw [htlen]; simp; omega)]
        rw [mapSet_single, htlen]
        have hih := ih ((b :: t).drop S)
          (by
            intro hc
            have := congrArg List.length hc
            simp at this
            omega)
          (by simp; omega) u (by simp; omega)
          (cs ++ [⟨⟨csid, .t3⟩, (b :: t).take S⟩]) (collected + S)
          (by simp [htlen, hcol])
          (by simp; omega)
        rw [hih]
        simp [htlen]

end Streamany

namespace Streamany

/-- Reading the first (fmt-0, full-header) chunk of an outbound message. -/
theorem readChunk_fmt0 (csid S L ty : Nat) (body : Bytes)
    (hcs2 : 2 ≤ csid) (hcs63 : csid ≤ 63) (hL24 : L < 2 ^ 24) :
    readChunk (S : Int)
      (csid :: 0 :: 0 :: 0 :: jsByteOf L 2 :: jsByteOf L 1 :: jsByteOf L 0 ::
        ty :: m0 :: m1 :: m2 :: m3 :: body) =
      (match jsRead body (if (L : Int) < (S : Int) then (L : Int) else (S : Int)) with
       | none => .eof
       | some (data, rest2) =>
           .ok ⟨⟨csid, .t0 0 L ty (be4signed m0 m1 m2 m3)⟩, data⟩ rest2) := by
  rw [readChunk]
  rw [show readChunkHeader (csid :: 0 :: 0 :: 0 :: jsByteOf L 2 :: jsByteOf L 1 ::
      jsByteOf L 0 :: ty :: m0 :: m1 :: m2 :: m3 :: body) =
      some (⟨csid, .t0 0 L ty (be4signed m0 m1 m2 m3)⟩, body) from by
    rw [readChunkHeader]
    rw [show readBasicHeader (csid :: 0 :: 0 :: 0 :: jsByteOf L 2 :: jsByteOf L 1 ::
        jsByteOf L 0 :: ty :: m0 :: m1 :: m2 :: m3 :: body) =
        some (0, csid, 0 :: 0 :: 0 :: jsByteOf L 2 :: jsByteOf L 1 :: jsByteOf L 0 ::
          ty :: m0 :: m1 :: m2 :: m3 :: body) from by
      rw [readBasicHeader]
      rw [show jsRead (csid :: 0 :: 0 :: 0 :: jsByteOf L 2 :: jsByteOf L 1 ::
          jsByteOf L 0 :: ty :: m0 :: m1 :: m2 :: m3 :: body) 1 =
          some ([csid], 0 :: 0 :: 0 :: jsByteOf L 2 :: jsByteOf L 1 :: jsByteOf L 0 ::
            ty :: m0 :: m1 :: m2 :: m3 :: body) from by simp [jsRead]]
      simp only []
      rw [if_neg (by omega), if_neg (by omega)]
      rw [show csid / 2 ^ 6 = 0 from by omega, show csid % 64 = csid from by omega]
    ]
    simp only []
    rw [show readMessageHeader 0 (0 :: 0 :: 0 :: jsByteOf L 2 :: jsByteOf L 1 ::
        jsByteOf L 0 :: ty :: m0 :: m1 :: m2 :: m3 :: body) =
        some (.t0 0 L ty (be4signed m0 m1 m2 m3), body) from by
      rw [readMessageHeader, if_pos rfl]
      rw [show jsRead (0 :: 0 :: 0 :: jsByteOf L 2 :: jsByteOf L 1 :: jsByteOf L 0 ::
          ty :: m0 :: m1 :: m2 :: m3 :: body) 11 =
          some ([0, 0, 0, jsByteOf L 2, jsByteOf L 1, jsByteOf L 0, ty, m0, m1, m2, m3],
            body) from by simp [jsRead]]
      simp only []
      rw [show ([0, 0, 0, jsByteOf L 2, jsByteOf L 1, jsByteOf L 0, ty,
        m0, m1, m2, m3] : Bytes).take 3 = [0, 0, 0] from rfl]
      rw [show (([0, 0, 0, jsByteOf L 2, jsByteOf L 1, jsByteOf L 0, ty,
        m0, m1, m2, m3] : Bytes).drop 3).take 3 =
        [jsByteOf L 2, jsByteOf L 1, jsByteOf L 0] from rfl]
      rw [show (([0, 0, 0, jsByteOf L 2, jsByteOf L 1, jsByteOf L 0, ty,
        m0, m1, m2, m3] : Bytes).drop 7).take 4 = [m0, m1, m2, m3] from rfl]
      rw [show byte_3_to_number [0, 0, 0] = some 0 from rfl]
      rw [show byte_3_to_number [jsByteOf L 2, jsByteOf L 1, jsByteOf L 0] =
        some (be3 (jsByteOf L 2) (jsByteOf L 1) (jsByteOf L 0)) from rfl]
      rw [show byte_4_to_number [m0, m1, m2, m3] = some (be4signed m0 m1 m2 m3) from rfl]
      simp only []
      rw [be3_u24 L hL24]
      rfl
    ]
    simp only []
    rw [if_neg (by omega)]
  ]

set_option maxHeartbeats 1000000 in
/-- C1, as the code actually behaves: for every message payload (length
≥ 1, below the 24-bit length field), every chunk size `S ≥ 1`, every
compact-form chunk stream id and every 32-bit message stream id,
fragmenting with `sendMessage` and feeding the bytes through the chunk
reader (inbound chunk size `S`) and the reassembler yields exactly one
message with the same type, the same payload length, bit-identical
payload, timestamp 0 (the writer hard-codes it), and a message stream id
equal to the *byte-reversal* of the one sent, reinterpreted as a signed
32-bit integer — the writer emits it little-endian while the reader
decodes it big-endian. -/
theorem C1_roundtrip_amended (type : Nat) (payload : Bytes) (csid msid S : Nat)
    (hL : 1 ≤ payload.length) (hS : 1 ≤ S) (hcs2 : 2 ≤ csid) (hcs63 : csid ≤ 63)
    (hty : type < 256) (hlen24 : payload.length < 2 ^ 24) (hmsid : msid < 2 ^ 32)
    (hbytes : ∀ b ∈ payload, b < 256) :
    messagesOfStream (S : Int) (sendMessage type payload csid msid S) =
      [⟨⟨type, payload.length, 0, toInt32 (byteswap32 msid)⟩, payload⟩] := by
  rw [messagesOfStream, messagesFromChunks]
  rw [sendMessage_bytes type payload csid msid S hL (by omega)]
  rw [jsOrNum_some_zero msid, Nat.mod_eq_of_lt hty]
  rw [chunkStream]
  rw [readChunk_fmt0 csid S payload.length type _ hcs2 hcs63 hlen24]
  rw [be4signed_swap msid hmsid]
  by_cases hcase : payload.length ≤ S
  · -- the whole message fits in the first chunk
    have htake : payload.take S = payload := List.take_of_length_le hcase
    have hdrop : payload.drop S = [] := by rw [List.drop_eq_nil_iff]; omega
    rw [htake, hdrop, sendMessageRest_nil, List.append_nil]
    rw [show (if ((payload.length : Nat) : Int) < (S : Int) then
        ((payload.length : Nat) : Int) else (S : Int)) = (payload.length : Int) from by
      split <;> omega]
    rw [show jsRead payload (payload.length : Int) =
        some (payload, []) from by
      rw [jsRead, if_neg (by omega), if_neg (by omega),
        if_neg (by simp [List.isEmpty_iff]; intro hc; rw [hc] at hL; simp at hL)]
      rw [show ((payload.length : Nat) : Int).toNat = payload.length from by omega]
      rw [List.take_length, List.drop_length]]
    simp only []
    rw [show chunkStream (S : Int) ((csid :: 0 :: 0 :: 0 :: jsByteOf payload.length 2 ::
        jsByteOf payload.length 1 :: jsByteOf payload.length 0 :: type ::
        jsByteOf msid 0 :: jsByteOf msid 1 :: jsByteOf msid 2 :: jsByteOf msid 3 ::
        payload).length) [] = [] from by
      cases hlen : (csid :: 0 :: 0 :: 0 :: jsByteOf payload.length 2 ::
        jsByteOf payload.length 1 :: jsByteOf payload.length 0 :: type ::
        jsByteOf msid 0 :: jsByteOf msid 1 :: jsByteOf msid 2 :: jsByteOf msid 3 ::
        payload).length <;> rfl]
    rw [runChunks_cons, runChunks_nil]
    simp only [stepChunk]
    rw [mapGet_nil]
    simp only []
    rw [if_pos (by omega)]
    simp only [assembleMessage]
    simp
  · -- first chunk of `S` bytes, remainder in fmt-3 chunks
    have htlen : (payload.take S).length = S := by simp; omega
    rw [show (if ((payload.length : Nat) : Int) < (S : Int) then
        ((payload.length : Nat) : Int) else (S : Int)) = (S : Int) from by
      split <;> omega]
    rw [show jsRead (payload.take S ++
          sendMessageRest csid S payload.length (payload.drop S)) (S : Int) =
        some (payload.take S,
          sendMessageRest csid S payload.length (payload.drop S)) from by
      rw [jsRead, if_neg (by omega), if_neg (by omega), if_neg (by
        simp only [List.isEmpty_iff, List.append_eq_nil]
        rintro ⟨hc, -⟩
        have := congrArg List.length hc
        rw [htlen] at this
        simp at this
        omega)]
      rw [show ((S : Nat) : Int).toNat = S from by omega]
      rw [List.take_append_of_le_length (by omega), List.take_take, min_self,
        List.drop_left' htlen]]
    simp only []
    rw [runChunks_cons]
    simp only [stepChunk]
    rw [mapGet_nil]
    simp only []
    rw [if_neg (by rw [htlen]; omega)]
    rw [mapSet_nil, htlen]
    have hrr := rest_roundtrip csid S hcs2 hcs63 hS
      ⟨type, payload.length, 0, toInt32 (byteswap32 msid)⟩ payload.length
      payload.length (payload.drop S)
      (by
        intro hc
        have := congrArg List.length hc
        simp at this
        omega)
      (by simp)
      ((csid :: 0 :: 0 :: 0 :: jsByteOf payload.length 2 ::
        jsByteOf payload.length 1 :: jsByteOf payload.length 0 :: type ::
        jsByteOf msid 0 :: jsByteOf msid 1 :: jsByteOf msid 2 :: jsByteOf msid 3 ::
        (payload.take S ++
          sendMessageRest csid S payload.length (payload.drop S))).length)
      (by
        have hrest := sendMessageRest_length csid S hS payload.length
          (payload.drop S) (by simp)
        simp only [List.length_cons, List.length_append]
        simp only [List.length_drop] at hrest ⊢
        omega)
      [⟨⟨csid, .t0 0 payload.length type (toInt32 (byteswap32 msid))⟩, payload.take S⟩] S
      (by simp [htlen])
      (by simp; omega)
    rw [hrr]
    simp only [List.map_cons, List.map_nil, List.flatten_cons, List.flatten_nil,
      List.append_nil, List.take_append_drop]
    simp

end Streamany

namespace Streamany

/-- Witness for C1 (amended): a 3-byte message split at chunk size 2. -/
theorem C1_roundtrip_amended_witness :
    messagesOfStream ((2 : Nat) : Int) (sendMessage 8 [170, 11, 12] 3 1 2) =
      [⟨⟨8, 3, 0, toInt32 (byteswap32 1)⟩, [170, 11, 12]⟩] :=
  C1_roundtrip_amended 8 [170, 11, 12] 3 1 2 (by decide) (by decide) (by decide)
    (by decide) (by decide) (by decide) (by decide) (by decide)

end Streamany

namespace Streamany

/-- `Map.set` followed by `Map.get` at the same key returns the value
just stored. -/
theorem mapGet_mapSet_self {α : Type} (m : List (Nat × α)) (k : Nat) (v : α) :
    mapGet (mapSet m k v) k = some v := by
  induction m with
  | nil => simp [mapGet, mapSet]
  | cons p m ih =>
      by_cases hpk : p.1 = k
      · have hset : mapSet (p :: m) k v
            = (k, v) :: m.map (fun q => if q.1 = k then (k, v) else q) := by
          simp [mapSet, hpk]
        rw [hset, mapGet, List.find?_cons_of_pos _ (by simp)]
        rfl
      · by_cases hany : m.any (fun q => q.1 = k)
        · have hset : mapSet (p :: m) k v
              = p :: m.map (fun q => if q.1 = k then (k, v) else q) := by
            simp [mapSet, hany, hpk]
          have hset2 : mapSet m k v
              = m.map (fun q => if q.1 = k then (k, v) else q) := by
            simp [mapSet, hany]
          rw [hset, mapGet, List.find?_cons_of_neg _ (by simp [hpk])]
          rw [hset2, mapGet] at ih
          exact ih
        · have hset : mapSet (p :: m) k v = p :: (m ++ [(k, v)]) := by
            simp [mapSet, hpk, hany]
          have hset2 : mapSet m k v = m ++ [(k, v)] := by
            simp [mapSet, hany]
          rw [hset, mapGet, List.find?_cons_of_neg _ (by simp [hpk])]
          rw [hset2, mapGet] at ih
          exact ih

/-- C10 — (1) when a non-Type-0 chunk completes a message on a chunk
stream, the reassembler re-registers that CSID with the *old* message
header and `totalLength` 0; (2) consequently a reset entry
`⟨some h, 0, 0, []⟩` makes every subsequent non-Type-0 chunk on that CSID
immediately emit an extra message with header `h` and *empty* payload,
while the entry goes straight back to the reset state — the chunk's
payload bytes are discarded, never accumulated. -/
theorem C10_reset_then_empty
    (st : List (Nat × MessageStreamAcc)) (k : Nat) (h : MessageHeader)
    (mh : MsgHeader) (d : Bytes) (ms : MessageStreamAcc)
    (hmh : mh.isFmt0 = false) :
    (mapGet st k = some ms → ms.totalLength ≤ ms.collectedLength + d.length →
      mapGet (stepChunk st ⟨⟨k, mh⟩, d⟩).1 k = some ⟨ms.messageHeader, 0, 0, []⟩) ∧
    (mapGet st k = some ⟨some h, 0, 0, []⟩ →
      (stepChunk st ⟨⟨k, mh⟩, d⟩).2 = [⟨h, []⟩] ∧
      mapGet (stepChunk st ⟨⟨k, mh⟩, d⟩).1 k = some ⟨some h, 0, 0, []⟩) := by
  cases mh with
  | t0 a b c e => simp [MsgHeader.isFmt0] at hmh
  | t1 a b c =>
      constructor
      · intro hget hle
        simp only [stepChunk, hget]
        rw [if_pos (by simpa using hle)]
        exact mapGet_mapSet_self st k _
      · intro hget
        simp only [stepChunk, hget]
        rw [if_pos (by simp)]
        refine ⟨by simp [assembleMessage], mapGet_mapSet_self st k _⟩
  | t2 a =>
      constructor
      · intro hget hle
        simp only [stepChunk, hget]
        rw [if_pos (by simpa using hle)]
        exact mapGet_mapSet_self st k _
      · intro hget
        simp only [stepChunk, hget]
        rw [if_pos (by simp)]
        refine ⟨by simp [assembleMessage], mapGet_mapSet_self st k _⟩
  | t3 =>
      constructor
      · intro hget hle
        simp only [stepChunk, hget]
        rw [if_pos (by simpa using hle)]
        exact mapGet_mapSet_self st k _
      · intro hget
        simp only [stepChunk, hget]
        rw [if_pos (by simp)]
        refine ⟨by simp [assembleMessage], mapGet_mapSet_self st k _⟩

/-- Witness for C10: a Type-3 chunk completing a message resets CSID 3 to
`⟨header, 0, 0, []⟩`; on the reset entry a Type-3 chunk with payload
`[9,9,9]` emits `⟨header, []⟩` and the entry stays reset. -/
theorem C10_reset_then_empty_witness :
    mapGet (stepChunk [(3, ⟨some ⟨8, 6, 0, 1⟩, 6, 4, []⟩)]
        ⟨⟨3, MsgHeader.t3⟩, [9, 9, 9]⟩).1 3 = some ⟨some ⟨8, 6, 0, 1⟩, 0, 0, []⟩ ∧
    (stepChunk [(3, ⟨some ⟨8, 6, 0, 1⟩, 0, 0, []⟩)]
        ⟨⟨3, MsgHeader.t3⟩, [9, 9, 9]⟩).2 = [⟨⟨8, 6, 0, 1⟩, []⟩] ∧
    mapGet (stepChunk [(3, ⟨some ⟨8, 6, 0, 1⟩, 0, 0, []⟩)]
        ⟨⟨3, MsgHeader.t3⟩, [9, 9, 9]⟩).1 3 = some ⟨some ⟨8, 6, 0, 1⟩, 0, 0, []⟩ :=
  ⟨(C10_reset_then_empty [(3, ⟨some ⟨8, 6, 0, 1⟩, 6, 4, []⟩)] 3 ⟨8, 6, 0, 1⟩
      MsgHeader.t3 [9, 9, 9] ⟨some ⟨8, 6, 0, 1⟩, 6, 4, []⟩ rfl).1 rfl (by decide),
   (C10_reset_then_empty [(3, ⟨some ⟨8, 6, 0, 1⟩, 0, 0, []⟩)] 3 ⟨8, 6, 0, 1⟩
      MsgHeader.t3 [9, 9, 9] ⟨some ⟨8, 6, 0, 1⟩, 0, 0, []⟩ rfl).2 rfl⟩

end Streamany

namespace Streamany

/-- `read conn n` on a stream holding at least `n` bytes delivers exactly
the first `n`. -/
theorem jsRead_exact (pre post : Bytes) (n : Int) (hn : 0 < n)
    (hlen : (pre.length : Int) = n) : jsRead (pre ++ post) n = some (pre, post) := by
  have hne : pre ≠ [] := by
    intro h
    subst h
    simp at hlen
    omega
  have hnt : n.toNat = pre.length := by omega
  rw [jsRead, if_neg (by omega), if_neg (by omega),
    if_neg (by simp [List.isEmpty_iff, hne]), hnt]
  rw [List.take_left, List.drop_left]

/-- C3 — for a well-formed client byte stream (version 3, full-length C1
and C2 blocks), the handshake succeeds exactly when C2 echoes S1
(`C2[0..4] = s1_time`, `C2[4..8] = [0,0,0,0]`, `C2[8..1536] = s1_random`);
on success the bytes written are S0, S1 and then S2 =
`c1_time ++ c1_time ++ c1_random` (a single C1 time for both time
fields); on mismatch the handshake aborts and the connection never emits
a message, for every chunk size. -/
theorem C3_s2_echo_and_c2_verify (s1_time s1_random c1t c1z c1r c2 rest : Bytes)
    (h1 : s1_time.length = 4) (h2 : s1_random.length = 1528)
    (h3 : c1t.length = 4) (h4 : c1z.length = 4) (h5 : c1r.length = 1528)
    (h6 : c2.length = 1536) :
    handshake s1_time s1_random ([3] ++ c1t ++ c1z ++ c1r ++ c2 ++ rest)
      = (if c2 = s1_time ++ [0, 0, 0, 0] ++ s1_random
         then some ([3] ++ s1_time ++ [0, 0, 0, 0] ++ s1_random ++
                    (c1t ++ c1t ++ c1r), rest)
         else none) ∧
    (c2 ≠ s1_time ++ [0, 0, 0, 0] ++ s1_random → ∀ S : Int,
      connMessages s1_time s1_random S ([3] ++ c1t ++ c1z ++ c1r ++ c2 ++ rest) = []) := by
  have e0 := jsRead_exact [3] (c1t ++ (c1z ++ (c1r ++ (c2 ++ rest)))) 1 (by norm_num)
    (by simp)
  have e1 := jsRead_exact c1t (c1z ++ (c1r ++ (c2 ++ rest))) 4 (by norm_num) (by simp [h3])
  have e2 := jsRead_exact c1z (c1r ++ (c2 ++ rest)) 4 (by norm_num) (by simp [h4])
  have e3 := jsRead_exact c1r (c2 ++ rest) 1528 (by norm_num) (by simp [h5])
  have e4 := jsRead_exact c2 rest 1536 (by norm_num) (by simp [h6])
  have hs1 : jsSlice c2 0 4 = c2.take 4 := by
    simp [jsSlice, jsIdx, h6]
  have hs2 : jsSlice c2 4 8 = (c2.drop 4).take 4 := by
    simp [jsSlice, jsIdx, h6, List.drop_take]
  have hs3 : jsSlice c2 8 1536 = c2.drop 8 := by
    simp [jsSlice, jsIdx, h6, List.take_of_length_le (le_of_eq h6)]
  have hdd : (c2.drop 4).drop 4 = c2.drop 8 := by
    rw [List.drop_drop]
  have hsplit : c2 = c2.take 4 ++ ((c2.drop 4).take 4 ++ (c2.drop 4).drop 4) := by
    rw [List.take_append_drop, List.take_append_drop]
  have hiff : (jsSlice c2 0 4 = s1_time ∧ jsSlice c2 4 8 = [0, 0, 0, 0] ∧
      jsSlice c2 8 1536 = s1_random) ↔ c2 = s1_time ++ ([0, 0, 0, 0] ++ s1_random) := by
    rw [hs1, hs2, hs3]
    constructor
    · rintro ⟨a, b, c⟩
      rw [hsplit, hdd, a, b, c]
    · intro hc
      subst hc
      refine ⟨?_, ?_, ?_⟩
      · rw [List.take_left' h1]
      · rw [List.drop_left' h1]
        rfl
      · rw [← hdd, List.drop_left' h1]
        rfl
  have main : handshake s1_time s1_random ([3] ++ c1t ++ c1z ++ c1r ++ c2 ++ rest)
      = (if c2 = s1_time ++ [0, 0, 0, 0] ++ s1_random
         then some ([3] ++ s1_time ++ [0, 0, 0, 0] ++ s1_random ++
                    (c1t ++ c1t ++ c1r), rest)
         else none) := by
    simp only [List.append_assoc]
    simp only [handshake, e0, e1, e2, e3, e4]
    rw [if_neg (by decide)]
    by_cases hc : c2 = s1_time ++ ([0, 0, 0, 0] ++ s1_random)
    · rw [if_pos (hiff.mpr hc), if_pos hc]
      simp [List.append_assoc]
    · rw [if_neg (fun hcond => hc (hiff.mp hcond)), if_neg hc]
  refine ⟨main, fun hne S => ?_⟩
  simp only [connMessages, main, if_neg hne]

/-- Witness for C3: a matching C2 completes the handshake with
S2 = c1t ++ c1t ++ c1r; a C2 of zeros aborts it with no messages. -/
theorem C3_s2_echo_and_c2_verify_witness :
    handshake [1, 2, 3, 4] (List.replicate 1528 7)
        ([3] ++ [9, 9, 9, 9] ++ [0, 0, 0, 0] ++ List.replicate 1528 5 ++
         ([1, 2, 3, 4] ++ [0, 0, 0, 0] ++ List.replicate 1528 7) ++ [17])
      = some ([3] ++ [1, 2, 3, 4] ++ [0, 0, 0, 0] ++ List.replicate 1528 7 ++
              ([9, 9, 9, 9] ++ [9, 9, 9, 9] ++ List.replicate 1528 5), [17]) ∧
    connMessages [1, 2, 3, 4] (List.replicate 1528 7) 128
        ([3] ++ [9, 9, 9, 9] ++ [0, 0, 0, 0] ++ List.replicate 1528 5 ++
         List.replicate 1536 0 ++ [17]) = [] := by
  constructor
  · rw [(C3_s2_echo_and_c2_verify [1, 2, 3, 4] (List.replicate 1528 7) [9, 9, 9, 9]
      [0, 0, 0, 0] (List.replicate 1528 5)
      ([1, 2, 3, 4] ++ [0, 0, 0, 0] ++ List.replicate 1528 7) [17]
      (by decide) (by rw [List.length_replicate]) (by decide) (by decide)
      (by rw [List.length_replicate])
      (by rw [List.length_append, List.length_append, List.length_replicate]; decide)).1,
      if_pos rfl]
  · exact (C3_s2_echo_and_c2_verify [1, 2, 3, 4] (List.replicate 1528 7) [9, 9, 9, 9]
      [0, 0, 0, 0] (List.replicate 1528 5) (List.replicate 1536 0) [17]
      (by decide) (by rw [List.length_replicate]) (by decide) (by decide)
      (by rw [List.length_replicate]) (by rw [List.length_replicate])).2
      (by decide) 128


end Streamany

namespace Streamany

/-! ## Command replies (`src/core/messages.ts`)

The reply helpers all funnel into `sendMessage(conn, {type, payload},
chunkStreamId, messageStreamId, chunkSize)`; a `SentMsg` records those
exact arguments. -/

/-- One outbound message: the arguments a reply helper hands to
`sendMessage`. -/
structure SentMsg where
  type : Nat
  payload : Bytes
  chunk_stream_id : Nat
  message_stream_id : Nat
  chunkSize : Nat
deriving DecidableEq, Repr

/-- `sendWindowAcknowledgementSize`: type 5, the window size as four
big-endian bytes, via `sendControlMessage`'s defaults (CSID 2, message
stream 0, chunk size 128). -/
def sendWindowAcknowledgementSize (windowSize : Nat) : SentMsg :=
  ⟨5, [jsByteOf windowSize 3, jsByteOf windowSize 2, jsByteOf windowSize 1,
       jsByteOf windowSize 0], 2, 0, 128⟩

/-- `sendSetPeerBandwidth`: type 6, four big-endian bytes plus the limit
type byte. -/
def sendSetPeerBandwidth (windowSize limitType : Nat) : SentMsg :=
  ⟨6, [jsByteOf windowSize 3, jsByteOf windowSize 2, jsByteOf windowSize 1,
       jsByteOf windowSize 0, limitType % 256], 2, 0, 128⟩

/-- `sendStreamBegin`: type 4 user control, event type 0, then the stream
id as four big-endian bytes. -/
def sendStreamBegin (streamId : Nat) : SentMsg :=
  ⟨4, [0, 0, jsByteOf streamId 3, jsByteOf streamId 2, jsByteOf streamId 1,
       jsByteOf streamId 0], 2, 0, 128⟩

/-- `sendCommandAMF0`: type 20 on chunk stream 3, message stream 1, chunk
size 4096, the payload an AMF0-encoded command. -/
def sendCommandAMF0 (commandName : Bytes) (transactionId : AMF0Value)
    (commandObject : AMF0Value) (additionalParams : List AMF0Value) : SentMsg :=
  ⟨20, encodeAMF0Command commandName transactionId commandObject additionalParams,
   3, 1, 4096⟩

/-- JavaScript property read `props[k]` on an object's property list. -/
def jsGetProp (props : List (Bytes × AMF0Value)) (k : Bytes) : Option AMF0Value :=
  (props.find? (fun p => p.1 = k)).map (fun p => p.2)

/-- JavaScript member access `v.k`: a property of an object, a `TypeError`
on `null`/`undefined`, `undefined` on the other (wrapped) values. -/
def jsGetMember (v : AMF0Value) (k : Bytes) : Except JsErr (Option AMF0Value) :=
  match v with
  | .obj props => .ok (jsGetProp props k)
  | .nullV => .error .typeError
  | .undef => .error .typeError
  | _ => .ok none

/-- `x || 0` on a possibly-`undefined` member: the member when truthy,
otherwise the number `0`. -/
def jsOrZeroNum : Option AMF0Value → AMF0Value
  | some v => if jsTruthy v then v else .num f64_0
  | none => .num f64_0

/-- The `_result` command object of `handleConnectCommand`. -/
def connectResultObj : AMF0Value :=
  .obj [(ascii "fmsVer", .str (ascii "FMS/3,0,1,123")),
        (ascii "capabilities", .num f64_31),
        (ascii "mode", .num f64_1)]

/-- The `_result` info object of `handleConnectCommand`, parametrised by
the `objectEncoding` value actually sent. -/
def connectInfoObj (objectEncoding : AMF0Value) : AMF0Value :=
  .obj [(ascii "level", .str (ascii "status")),
        (ascii "code", .str (ascii "NetConnection.Connect.Success")),
        (ascii "description", .str (ascii "Connection succeeded.")),
        (ascii "objectEncoding", objectEncoding)]

/-- `handleConnectCommand`: WIN_ACK(2500000), SET_PEER_BW(2500000, 2),
StreamBegin(0), then the `_result` command.  Reading `.objectEncoding`
off a `null`/`undefined` command object throws a `TypeError` after the
three control replies are already out, so these are returned with the
error. -/
def handleConnectCommand (transactionId commandObject : AMF0Value) :
    List SentMsg × Option JsErr :=
  match jsGetMember commandObject (ascii "objectEncoding") with
  | .error e =>
      ([sendWindowAcknowledgementSize 2500000, sendSetPeerBandwidth 2500000 2,
        sendStreamBegin 0], some e)
  | .ok enc =>
      ([sendWindowAcknowledgementSize 2500000, sendSetPeerBandwidth 2500000 2,
        sendStreamBegin 0,
        sendCommandAMF0 (ascii "_result") transactionId connectResultObj
          [connectInfoObj (jsOrZeroNum enc)]], none)

/-- JavaScript string interpolation for the value shapes the model
covers; `none` stands for number / array / date formatting, which no
theorem below exercises. -/
def jsInterp : AMF0Value → Option Bytes
  | .str s => some s
  | .bool true => some (ascii "true")
  | .bool false => some (ascii "false")
  | .nullV => some (ascii "null")
  | .undef => some (ascii "undefined")
  | .obj _ => some (ascii "[object Object]")
  | _ => none

/-- `handleCreateStreamCommand`: `_result` with `null` command object and
stream id 1. -/
def handleCreateStreamCommand (transactionId : AMF0Value) : List SentMsg :=
  [sendCommandAMF0 (ascii "_result") transactionId .nullV [.num f64_1]]

/-- `handlePlayCommand`: StreamBegin(1) and the `NetStream.Play.Start`
onStatus reply. -/
def handlePlayCommand (streamName : AMF0Value) : Option (List SentMsg) :=
  match jsInterp streamName with
  | none => none
  | some s =>
      some [sendStreamBegin 1,
        sendCommandAMF0 (ascii "onStatus") (.num f64_0) .nullV
          [.obj [(ascii "level", .str (ascii "status")),
                 (ascii "code", .str (ascii "NetStream.Play.Start")),
                 (ascii "description",
                  .str (ascii "Started playing " ++ s ++ ascii ".")),
                 (ascii "details", streamName)]]]

/-- `handleReleaseStreamCommand`: `_result` with `null` command object
and a `null` parameter. -/
def handleReleaseStreamCommand (transactionId : AMF0Value) : List SentMsg :=
  [sendCommandAMF0 (ascii "_result") transactionId .nullV [.nullV]]

/-- `handleFCPublishCommand`: same `_result` reply as `releaseStream`. -/
def handleFCPublishCommand (transactionId : AMF0Value) : List SentMsg :=
  [sendCommandAMF0 (ascii "_result") transactionId .nullV [.nullV]]

/-- The info object of the `NetStream.Publish.Start` onStatus reply. -/
def publishInfoObj (s : Bytes) (streamName : AMF0Value) : AMF0Value :=
  .obj [(ascii "level", .str (ascii "status")),
        (ascii "code", .str (ascii "NetStream.Publish.Start")),
        (ascii "description",
         .str (ascii "Started publishing " ++ s ++ ascii ".")),
        (ascii "details", streamName)]

/-- `handlePublishCommand`: StreamBegin(1) and the
`NetStream.Publish.Start` onStatus reply — unconditionally, with no state
consulted. -/
def handlePublishCommand (streamName : AMF0Value) : Option (List SentMsg) :=
  match jsInterp streamName with
  | none => none
  | some s =>
      some [sendStreamBegin 1,
        sendCommandAMF0 (ascii "onStatus") (.num f64_0) .nullV
          [publishInfoObj s streamName]]

/-- `handleCommandMessage`: parse the payload as an AMF0 command and
dispatch on the command name (a `switch` falling through to a log-only
default).  No connection state exists or is consulted.  `none` = the
parse diverged or a stringification outside the model. -/
def handleCommandMessage (fuel : Nat) (payload : Bytes) :
    Option (List SentMsg × Option JsErr) :=
  match parseAMF0Command fuel payload with
  | none => none
  | some (.error e) => some ([], some e)
  | some (.ok cmd) =>
      match cmd.commandName with
      | .str name =>
          if name = ascii "connect" then
            some (handleConnectCommand cmd.transactionId cmd.commandObject)
          else if name = ascii "createStream" then
            some (handleCreateStreamCommand cmd.transactionId, none)
          else if name = ascii "play" then
            match handlePlayCommand (cmd.additionalParams.headD .undef) with
            | none => none
            | some sent => some (sent, none)
          else if name = ascii "deleteStream" then
            some ([], none)
          else if name = ascii "closeStream" then
            some ([], none)
          else if name = ascii "releaseStream" then
            some (handleReleaseStreamCommand cmd.transactionId, none)
          else if name = ascii "FCPublish" then
            some (handleFCPublishCommand cmd.transactionId, none)
          else if name = ascii "publish" then
            match handlePublishCommand (cmd.additionalParams.headD .undef) with
            | none => none
            | some sent => some (sent, none)
          else some ([], none)
      | _ => some ([], none)

/-- A reply whose payload is an encoded `_error` command.  The engine
never produces one. -/
def isErrorReply (m : SentMsg) : Prop :=
  ∃ tid obj params, m.payload = encodeAMF0Command (ascii "_error") tid obj params

end Streamany

namespace Streamany

/-- Round-trip of a single value, available for any value. -/
theorem roundVal_all (v : AMF0Value) : RoundVal v :=
  (parse_encode_rec (sizeOf v)).1 v le_rfl

/-- The `while (position < buffer.length)` parameter loop of
`parseAMF0Command` collects exactly the encoded parameter values. -/
theorem parseParams_encode (params : List AMF0Value) : ∀ (f : Nat)
    (acc : List AMF0Value) (pre : Bytes), amfWFbElems params = true →
    1 + amfFuelElems params ≤ f →
    parseAMF0Params f (pre ++ (params.map encodeAMF0Value).flatten)
        (pre.length : Int) acc =
      some (.ok (acc.reverse ++ params,
        (pre.length : Int) + (((params.map encodeAMF0Value).flatten).length : Int))) := by
  induction params with
  | nil =>
      intro f acc pre _ hf
      obtain ⟨g, rfl⟩ : ∃ g, f = g + 1 := ⟨f - 1, by omega⟩
      simp only [parseAMF0Params]
      rw [if_neg (by simp)]
      simp
  | cons v rest ihp =>
      intro f acc pre hwf hf
      obtain ⟨g, rfl⟩ : ∃ g, f = g + 1 := ⟨f - 1, by omega⟩
      have hwfv : amfWFb v = true ∧ amfWFbElems rest = true := by
        simpa [amfWFbElems, Bool.and_eq_true] using hwf
      have hfs : 1 + amfFuel v + amfFuelElems rest ≤ g := by
        simp only [amfFuelElems] at hf
        omega
      obtain ⟨m, hm9, hmhead⟩ := encode_headByte v
      obtain ⟨hlt, -⟩ := List.getElem?_eq_some.1 hmhead
      simp only [parseAMF0Params]
      rw [if_pos (by
        simp only [List.map_cons, List.flatten_cons, List.length_append]
        push_cast
        omega)]
      rw [show pre ++ (List.map encodeAMF0Value (v :: rest)).flatten =
        pre ++ encodeAMF0Value v ++ (List.map encodeAMF0Value rest).flatten
        from by simp]
      rw [roundVal_all v g hwfv.1 (by omega) pre
        ((List.map encodeAMF0Value rest).flatten) _ _ rfl rfl]
      simp only []
      rw [show pre ++ encodeAMF0Value v ++ (List.map encodeAMF0Value rest).flatten =
        (pre ++ encodeAMF0Value v) ++ (List.map encodeAMF0Value rest).flatten
        from by simp]
      rw [show ((pre.length : Int) + ((encodeAMF0Value v).length : Int)) =
        (((pre ++ encodeAMF0Value v).length : Nat) : Int) from by
          push_cast [List.length_append]
          ring]
      rw [ihp g (v :: acc) (pre ++ encodeAMF0Value v) hwfv.2 (by omega)]
      simp only [Option.some.injEq, Except.ok.injEq, Prod.mk.injEq, List.reverse_cons,
        List.append_assoc, List.singleton_append, List.map_cons, List.flatten_cons,
        List.length_append, true_and]
      push_cast
      ring

/-- Decoding an encoded command returns exactly the command name,
transaction id, command object (after the encoder's `|| null`) and the
parameter list. -/
theorem parse_encodeAMF0Command (name : Bytes) (tid obj : AMF0Value)
    (params : List AMF0Value) (f : Nat)
    (hname : amfWFb (.str name) = true)
    (htid : amfWFb tid = true) (hobj : amfWFb (jsOrNull obj) = true)
    (hparams : amfWFbElems params = true)
    (hf : amfFuel tid + amfFuel (jsOrNull obj) + amfFuelElems params + 2 ≤ f) :
    parseAMF0Command f (encodeAMF0Command name tid obj params) =
      some (.ok ⟨.str name, tid, jsOrNull obj, params⟩) := by
  have htid1 := amfFuel_pos tid
  have hobj1 := amfFuel_pos (jsOrNull obj)
  rw [parseAMF0Command]
  rw [show encodeAMF0Command name tid obj params =
    [] ++ encodeAMF0Value (.str name) ++ (encodeAMF0Value tid ++
      (encodeAMF0Value (jsOrNull obj) ++ (params.map encodeAMF0Value).flatten))
    from by simp [encodeAMF0Command]]
  rw [show (0 : Int) = ((([] : Bytes).length : Nat) : Int) from by simp]
  rw [roundVal_all (.str name) f hname (by
      have : amfFuel (.str name) = 1 := rfl
      omega)
    [] (encodeAMF0Value tid ++ (encodeAMF0Value (jsOrNull obj) ++
      (params.map encodeAMF0Value).flatten)) _ _ rfl rfl]
  simp only []
  rw [show (((([] : Bytes).length : Nat) : Int) + ((encodeAMF0Value (.str name)).length : Int)) =
    ((([] ++ encodeAMF0Value (.str name)).length : Nat) : Int) from by
      push_cast [List.length_append]
      ring]
  rw [show ([] : Bytes) ++ encodeAMF0Value (.str name) ++ (encodeAMF0Value tid ++
      (encodeAMF0Value (jsOrNull obj) ++ (params.map encodeAMF0Value).flatten)) =
    ([] ++ encodeAMF0Value (.str name)) ++ encodeAMF0Value tid ++
      (encodeAMF0Value (jsOrNull obj) ++ (params.map encodeAMF0Value).flatten)
    from by simp]
  rw [roundVal_all tid f htid (by omega) ([] ++ encodeAMF0Value (.str name))
    (encodeAMF0Value (jsOrNull obj) ++ (params.map encodeAMF0Value).flatten) _ _ rfl rfl]
  simp only []
  rw [show ((((([] : Bytes) ++ encodeAMF0Value (.str name)).length : Nat) : Int) +
      ((encodeAMF0Value tid).length : Int)) =
    ((((([] : Bytes) ++ encodeAMF0Value (.str name)) ++ encodeAMF0Value tid).length : Nat) : Int)
    from by
      push_cast [List.length_append]
      ring]
  rw [show (([] : Bytes) ++ encodeAMF0Value (.str name)) ++ encodeAMF0Value tid ++
      (encodeAMF0Value (jsOrNull obj) ++ (params.map encodeAMF0Value).flatten) =
    (([] ++ encodeAMF0Value (.str name)) ++ encodeAMF0Value tid) ++
      encodeAMF0Value (jsOrNull obj) ++ (params.map encodeAMF0Value).flatten
    from by simp]
  rw [roundVal_all (jsOrNull obj) f hobj (by omega)
    ((([] : Bytes) ++ encodeAMF0Value (.str name)) ++ encodeAMF0Value tid)
    ((params.map encodeAMF0Value).flatten) _ _ rfl rfl]
  simp only []
  rw [show ((((([] : Bytes) ++ encodeAMF0Value (.str name)) ++ encodeAMF0Value tid).length : Int) +
      ((encodeAMF0Value (jsOrNull obj)).length : Int)) =
    (((((([] : Bytes) ++ encodeAMF0Value (.str name)) ++ encodeAMF0Value tid) ++
      encodeAMF0Value (jsOrNull obj)).length : Nat) : Int) from by
      push_cast [List.length_append]
      ring]
  rw [show (([] : Bytes) ++ encodeAMF0Value (.str name)) ++ encodeAMF0Value tid ++
      encodeAMF0Value (jsOrNull obj) ++ (params.map encodeAMF0Value).flatten =
    ((([] ++ encodeAMF0Value (.str name)) ++ encodeAMF0Value tid) ++
      encodeAMF0Value (jsOrNull obj)) ++ (params.map encodeAMF0Value).flatten
    from by simp]
  rw [parseParams_encode params f [] _ hparams (by omega)]
  simp

end Streamany

namespace Streamany

/-- A property value found on a wire-representable property list is
wire-representable. -/
theorem jsGetProp_wf : ∀ (props : List (Bytes × AMF0Value)) (k : Bytes) (v : AMF0Value),
    jsGetProp props k = some v → amfWFbProps props = true → amfWFb v = true := by
  intro props
  induction props with
  | nil =>
      intro k v h _
      simp [jsGetProp] at h
  | cons p rest ih =>
      intro k v h hwf
      obtain ⟨pk, pv⟩ := p
      simp only [amfWFbProps, Bool.and_eq_true] at hwf
      by_cases hpk : pk = k
      · rw [jsGetProp, List.find?_cons_of_pos _ (by simp [hpk])] at h
        simp only [Option.map_some'] at h
        obtain rfl : pv = v := by simpa using h
        exact hwf.1.2
      · rw [jsGetProp, List.find?_cons_of_neg _ (by simp [hpk])] at h
        exact ih k v h hwf.2

/-- The fuel of a property value is bounded by the list's fuel. -/
theorem jsGetProp_fuel : ∀ (props : List (Bytes × AMF0Value)) (k : Bytes) (v : AMF0Value),
    jsGetProp props k = some v → amfFuel v ≤ amfFuelProps props := by
  intro props
  induction props with
  | nil =>
      intro k v h
      simp [jsGetProp] at h
  | cons p rest ih =>
      intro k v h
      obtain ⟨pk, pv⟩ := p
      by_cases hpk : pk = k
      · rw [jsGetProp, List.find?_cons_of_pos _ (by simp [hpk])] at h
        simp only [Option.map_some'] at h
        obtain rfl : pv = v := by simpa using h
        simp only [amfFuelProps]
        omega
      · rw [jsGetProp, List.find?_cons_of_neg _ (by simp [hpk])] at h
        have := ih k v h
        simp only [amfFuelProps]
        omega

/-- The `objectEncoding` value the connect reply carries is
wire-representable whenever the command object is. -/
theorem amfWFb_jsOrZeroNum (props : List (Bytes × AMF0Value)) (k : Bytes)
    (hwf : amfWFbProps props = true) :
    amfWFb (jsOrZeroNum (jsGetProp props k)) = true := by
  cases hcase : jsGetProp props k with
  | none => decide
  | some v =>
      rw [jsOrZeroNum]
      by_cases ht : jsTruthy v
      · rw [if_pos ht]
        exact jsGetProp_wf props k v hcase hwf
      · rw [if_neg ht]
        decide

/-- Fuel bound for the `objectEncoding` value. -/
theorem amfFuel_jsOrZeroNum (props : List (Bytes × AMF0Value)) (k : Bytes) :
    amfFuel (jsOrZeroNum (jsGetProp props k)) ≤ amfFuelProps props + 1 := by
  cases hcase : jsGetProp props k with
  | none =>
      have : amfFuel (jsOrZeroNum none) = 1 := rfl
      omega
  | some v =>
      rw [jsOrZeroNum]
      by_cases ht : jsTruthy v
      · rw [if_pos ht]
        have := jsGetProp_fuel props k v hcase
        omega
      · rw [if_neg ht]
        have : amfFuel (AMF0Value.num f64_0) = 1 := rfl
        omega

/-- The connect info object is wire-representable for any
wire-representable `objectEncoding` value. -/
theorem connectInfoObj_wf (x : AMF0Value) (hx : amfWFb x = true) :
    amfWFb (connectInfoObj x) = true := by
  simp only [connectInfoObj, amfWFb, amfWFbProps, Bool.and_eq_true,
    decide_eq_true_eq, List.map_cons, List.map_nil]
  repeat' apply And.intro
  all_goals first | exact hx | decide

/-- Fuel of the connect info object. -/
theorem connectInfoObj_fuel (x : AMF0Value) :
    amfFuel (connectInfoObj x) = 9 + amfFuel x := by
  simp only [connectInfoObj, amfFuel, amfFuelProps]
  omega

end Streamany

namespace Streamany

set_option maxRecDepth 10000 in
/-- Counterexample for C6 as stated: a command object carrying a *falsy*
`objectEncoding` (here the boolean `false`) is answered with
`objectEncoding: 0`, not with `O.objectEncoding` — the code computes
`commandObject.objectEncoding || 0`, not "`O.objectEncoding` or 0 when
absent". -/
theorem C6_counterexample :
    handleConnectCommand (.num f64_1) (.obj [(ascii "objectEncoding", .bool false)]) =
      ([sendWindowAcknowledgementSize 2500000, sendSetPeerBandwidth 2500000 2,
        sendStreamBegin 0,
        sendCommandAMF0 (ascii "_result") (.num f64_1) connectResultObj
          [connectInfoObj (.num f64_0)]], none) ∧
    (AMF0Value.num f64_0 ≠ AMF0Value.bool false) :=
  ⟨rfl, fun h => AMF0Value.noConfusion h⟩

set_option maxHeartbeats 1000000 in
/-- C6 (amended) — a connect command with transaction id `T` and an
*object* command object `O` is answered, in order, by
WIN_ACK(2500000) (type 5, payload `[0x00,0x26,0x25,0xA0]`),
SET_PEER_BW(2500000, dynamic) (type 6, payload `[0x00,0x26,0x25,0xA0,2]`),
StreamBegin(0) (type 4, payload `[0,0,0,0,0,0]`), and a type-20 command on
chunk stream 3 / message stream 1 whose payload decodes to
`_result(T, {fmsVer:"FMS/3,0,1,123", capabilities:31, mode:1},
{level:"status", code:"NetConnection.Connect.Success",
description:"Connection succeeded.", objectEncoding: E})` where `E` is
`O.objectEncoding` when that member is truthy and the number 0
otherwise. -/
theorem C6_connect_replies (T : AMF0Value) (props : List (Bytes × AMF0Value)) (f : Nat)
    (hT : amfWFb T = true) (hO : amfWFb (AMF0Value.obj props) = true)
    (hf : amfFuel T + amfFuelProps props + 21 ≤ f) :
    handleCommandMessage f (encodeAMF0Command (ascii "connect") T (.obj props) []) =
      some ([⟨5, [0x00, 0x26, 0x25, 0xA0], 2, 0, 128⟩,
             ⟨6, [0x00, 0x26, 0x25, 0xA0, 2], 2, 0, 128⟩,
             ⟨4, [0, 0, 0, 0, 0, 0], 2, 0, 128⟩,
             ⟨20, encodeAMF0Command (ascii "_result") T connectResultObj
                [connectInfoObj (jsOrZeroNum (jsGetProp props (ascii "objectEncoding")))],
              3, 1, 4096⟩], none) ∧
    parseAMF0Command f (encodeAMF0Command (ascii "_result") T connectResultObj
        [connectInfoObj (jsOrZeroNum (jsGetProp props (ascii "objectEncoding")))]) =
      some (.ok ⟨.str (ascii "_result"), T, connectResultObj,
        [connectInfoObj (jsOrZeroNum (jsGetProp props (ascii "objectEncoding")))]⟩) := by
  have hOwf : amfWFbProps props = true := by
    simp only [amfWFb, Bool.and_eq_true] at hO
    exact hO.2
  have hOE : amfWFb (jsOrZeroNum (jsGetProp props (ascii "objectEncoding"))) = true :=
    amfWFb_jsOrZeroNum props _ hOwf
  have hOEf : amfFuel (jsOrZeroNum (jsGetProp props (ascii "objectEncoding"))) ≤
      amfFuelProps props + 1 := amfFuel_jsOrZeroNum props _
  have hjs : jsOrNull (AMF0Value.obj props) = AMF0Value.obj props := by
    simp [jsOrNull, jsTruthy]
  have hres : jsOrNull connectResultObj = connectResultObj := by
    simp [jsOrNull, jsTruthy, connectResultObj]
  constructor
  · rw [handleCommandMessage, parse_encodeAMF0Command (ascii "connect") T (.obj props) [] f
      (by decide) hT (by rw [hjs]; exact hO) (by decide)
      (by rw [hjs]; simp only [amfFuel, amfFuelElems]; omega)]
    simp +decide [handleConnectCommand, jsGetMember, hjs, sendWindowAcknowledgementSize,
      sendSetPeerBandwidth, sendStreamBegin, sendCommandAMF0, jsByteOf]
  · rw [parse_encodeAMF0Command (ascii "_result") T connectResultObj
      [connectInfoObj (jsOrZeroNum (jsGetProp props (ascii "objectEncoding")))] f
      (by decide) hT (by rw [hres]; decide)
      (by
        simp only [amfWFbElems, Bool.and_eq_true]
        exact ⟨connectInfoObj_wf _ hOE, trivial⟩)
      (by
        rw [hres]
        have h8 : amfFuel connectResultObj = 8 := rfl
        simp only [amfFuelElems, connectInfoObj_fuel]
        omega), hres]

/-- Witness for C6 (amended): transaction id 1 and an empty command
object (no `objectEncoding`, so 0 is sent). -/
theorem C6_connect_replies_witness :
    handleCommandMessage 40 (encodeAMF0Command (ascii "connect") (.num f64_1) (.obj []) []) =
      some ([⟨5, [0x00, 0x26, 0x25, 0xA0], 2, 0, 128⟩,
             ⟨6, [0x00, 0x26, 0x25, 0xA0, 2], 2, 0, 128⟩,
             ⟨4, [0, 0, 0, 0, 0, 0], 2, 0, 128⟩,
             ⟨20, encodeAMF0Command (ascii "_result") (.num f64_1) connectResultObj
                [connectInfoObj (jsOrZeroNum (jsGetProp [] (ascii "objectEncoding")))],
              3, 1, 4096⟩], none) ∧
    parseAMF0Command 40 (encodeAMF0Command (ascii "_result") (.num f64_1) connectResultObj
        [connectInfoObj (jsOrZeroNum (jsGetProp [] (ascii "objectEncoding")))]) =
      some (.ok ⟨.str (ascii "_result"), .num f64_1, connectResultObj,
        [connectInfoObj (jsOrZeroNum (jsGetProp [] (ascii "objectEncoding")))]⟩) :=
  C6_connect_replies (.num f64_1) [] 40 (by decide) (by decide) (by decide)

end Streamany

namespace Streamany

/-- The first three bytes of any encoded command: the STRING marker and
the u16 length of the command name. -/
theorem encodeAMF0Command_take3 (name : Bytes) (h : name.length ≤ 65535)
    (tid obj : AMF0Value) (params : List AMF0Value) :
    (encodeAMF0Command name tid obj params).take 3 =
      [2, jsByteOf name.length 1, jsByteOf name.length 0] := by
  simp [encodeAMF0Command, encodeAMF0Value, h, u16be]

set_option maxRecDepth 100000 in
/-- Counterexample for C9: a publish command arriving as the very first
command of a connection (the engine has no NetConnection state at all) is
answered with StreamBegin(1) and the `NetStream.Publish.Start` onStatus
reply — not with `_error`; the second reply's payload begins with the
command name `onStatus`. -/
theorem C9_counterexample :
    handleCommandMessage 40 (encodeAMF0Command (ascii "publish") (.num f64_0) .nullV
        [.str (ascii "live"), .str (ascii "record")]) =
      some ([sendStreamBegin 1,
        sendCommandAMF0 (ascii "onStatus") (.num f64_0) .nullV
          [publishInfoObj (ascii "live") (.str (ascii "live"))]], none) ∧
    (sendCommandAMF0 (ascii "onStatus") (.num f64_0) .nullV
        [publishInfoObj (ascii "live") (.str (ascii "live"))]).payload.take 11 =
      [2, 0, 8] ++ ascii "onStatus" :=
  ⟨rfl, rfl⟩

set_option maxHeartbeats 1000000 in
/-- C9 (amended) — the engine keeps no NetConnection state and never
answers `_error`: every publish command, whatever was (or was not)
handled before it, is answered with exactly StreamBegin(1) and the
`NetStream.Publish.Start` onStatus reply (`description`
"Started publishing `s`.", `details` the stream name), and neither reply
is an `_error` command. -/
theorem C9_publish_always_starts (tid obj pt : AMF0Value) (s : Bytes) (f : Nat)
    (htid : amfWFb tid = true) (hobj : amfWFb (jsOrNull obj) = true)
    (hs : amfWFb (AMF0Value.str s) = true) (hpt : amfWFb pt = true)
    (hf : amfFuel tid + amfFuel (jsOrNull obj) + amfFuel pt + 7 ≤ f) :
    handleCommandMessage f (encodeAMF0Command (ascii "publish") tid obj [.str s, pt]) =
      some ([sendStreamBegin 1,
        sendCommandAMF0 (ascii "onStatus") (.num f64_0) .nullV
          [publishInfoObj s (.str s)]], none) ∧
    ∀ m ∈ [sendStreamBegin 1,
        sendCommandAMF0 (ascii "onStatus") (.num f64_0) .nullV
          [publishInfoObj s (.str s)]], ¬ isErrorReply m := by
  constructor
  · rw [handleCommandMessage, parse_encodeAMF0Command (ascii "publish") tid obj
      [.str s, pt] f (by decide) htid hobj
      (by simp [amfWFbElems, hs, hpt])
      (by
        simp only [amfFuelElems]
        have h1 : amfFuel (AMF0Value.str s) = 1 := rfl
        omega)]
    simp +decide [handlePublishCommand, jsInterp]
  · intro m hm
    simp only [List.mem_cons, List.not_mem_nil, or_false] at hm
    rcases hm with rfl | rfl
    · rintro ⟨tid2, obj2, ps2, hp⟩
      have h3 := congrArg (fun l => List.take 3 l) hp
      simp only [sendStreamBegin] at h3
      rw [encodeAMF0Command_take3 (ascii "_error") (by decide) tid2 obj2 ps2] at h3
      exact absurd h3 (by decide)
    · rintro ⟨tid2, obj2, ps2, hp⟩
      have h3 := congrArg (fun l => List.take 3 l) hp
      simp only [sendCommandAMF0] at h3
      rw [encodeAMF0Command_take3 (ascii "onStatus") (by decide) _ _ _,
        encodeAMF0Command_take3 (ascii "_error") (by decide) tid2 obj2 ps2] at h3
      exact absurd h3 (by decide)

/-- Witness for C9 (amended): the counterexample inputs through the
general theorem. -/
theorem C9_publish_always_starts_witness :
    handleCommandMessage 40 (encodeAMF0Command (ascii "publish") (.num f64_1) .nullV
        [.str (ascii "live"), .str (ascii "record")]) =
      some ([sendStreamBegin 1,
        sendCommandAMF0 (ascii "onStatus") (.num f64_0) .nullV
          [publishInfoObj (ascii "live") (.str (ascii "live"))]], none) ∧
    ∀ m ∈ [sendStreamBegin 1,
        sendCommandAMF0 (ascii "onStatus") (.num f64_0) .nullV
          [publishInfoObj (ascii "live") (.str (ascii "live"))]], ¬ isErrorReply m :=
  C9_publish_always_starts (.num f64_1) .nullV (.str (ascii "record")) (ascii "live") 40
    (by decide) (by decide) (by decide) (by decide) (by decide)

end Streamany

namespace Streamany

/-- `handleSetChunkSize` as seen through `handleMessage`: a type-1 message
with at least 4 payload bytes overwrites the shared `chunkSizeRef.value`
with the signed big-endian read of its first four bytes; every other
message leaves it alone. -/
def setChunkSizeOf (ref : Int) (m : Message) : Int :=
  if m.header.type = 1 then
    match m.payload with
    | b0 :: b1 :: b2 :: b3 :: _ => be4signed b0 b1 b2 b3
    | _ => ref
  else ref

/-- One connection of the accept loop below the handshake: pull chunks
with the *current* value of the shared `chunkSizeRef`, reassemble, and
let each delivered message update the ref (`handleSetChunkSize`) before
the next chunk is read.  Returns the delivered messages and the ref value
the connection leaves behind for the next connection. -/
def runConn : Nat → Int → Bytes → List (Nat × MessageStreamAcc) → List Message × Int
  | 0, ref, _, _ => ([], ref)
  | fuel + 1, ref, s, st =>
      match readChunk ref s with
      | .eof => ([], ref)
      | .err => ([], ref)
      | .ok c rest =>
          let step := stepChunk st c
          let ref2 := step.2.foldl setChunkSizeOf ref
          let next := runConn fuel ref2 rest step.1
          (step.2 ++ next.1, next.2)

end Streamany

namespace Streamany

set_option maxRecDepth 1000000 in
/-- Counterexample for C7: connection A handles one SET_CHUNK_SIZE(4)
message, which mutates the module-global `chunkSizeRef`; connection B's
identical 20-byte stream (one 8-byte audio message) then delivers *no*
message, while under the initial chunk size 128 it delivers exactly one —
handling a message on A changed what B's task observes. -/
theorem C7_counterexample :
    runConn 30 128 [2, 0, 0, 0, 0, 0, 4, 1, 0, 0, 0, 0, 0, 0, 0, 4] [] =
      ([⟨⟨1, 4, 0, 0⟩, [0, 0, 0, 4]⟩], 4) ∧
    runConn 30 4 [3, 0, 0, 0, 0, 0, 8, 8, 0, 0, 0, 0, 200, 1, 2, 3, 4, 5, 6, 7] [] =
      ([], 4) ∧
    runConn 30 128 [3, 0, 0, 0, 0, 0, 8, 8, 0, 0, 0, 0, 200, 1, 2, 3, 4, 5, 6, 7] [] =
      ([⟨⟨8, 8, 0, 0⟩, [200, 1, 2, 3, 4, 5, 6, 7]⟩], 128) ∧
    ([] : List Message) ≠ [⟨⟨8, 8, 0, 0⟩, [200, 1, 2, 3, 4, 5, 6, 7]⟩] :=
  ⟨rfl, rfl, rfl, by decide⟩

set_option maxRecDepth 1000000 in
/-- C7 (amended) — the inbound chunk size is one module-global ref shared
by every connection: after connection A handles a single SET_CHUNK_SIZE
message carrying bytes `b0 b1 b2 b3`, the ref holds their signed
big-endian value, and *any* later connection B is read under that value
rather than the initial 128. -/
theorem C7_chunk_size_shared (b0 b1 b2 b3 : Nat) (sB : Bytes) (fB : Nat) :
    runConn 30 128 ([2, 0, 0, 0, 0, 0, 4, 1, 0, 0, 0, 0] ++ [b0, b1, b2, b3]) [] =
      ([⟨⟨1, 4, 0, 0⟩, [b0, b1, b2, b3]⟩], be4signed b0 b1 b2 b3) ∧
    runConn fB
        (runConn 30 128 ([2, 0, 0, 0, 0, 0, 4, 1, 0, 0, 0, 0] ++ [b0, b1, b2, b3]) []).2
        sB [] =
      runConn fB (be4signed b0 b1 b2 b3) sB [] :=
  ⟨rfl, rfl⟩

end Streamany
